import Mathlib

/-!
Verification development for the scoreboard-tracker analytics core.

Shallow embedding of the Rust source (src/routes/leaderboard.rs,
src/models/match_record.rs, src/storage/matches.rs) into Lean:

* `HashMap`s that are only read through `entry(..).or_default()` and key
  lookup are modelled as total functions with the default value
  (`Tally`), or — where iteration order matters (`max_by_key` over the
  map, output lists) — as association lists in first-insertion order
  (`updAssoc`).
* `f64` win rates are modelled as `ℚ`; the source guards the division by
  `total > 0`, so the value is always an exact rational `w / total`.
* Rust's stable `sort_by` is modelled by `List.insertionSort` (a stable
  sort) over the embedded comparator.
* Row keys (byte strings) are modelled as `List Nat` of character codes,
  compared by `List.Lex (· < ·)`, which is exactly byte-wise
  lexicographic comparison.
-/

namespace Scoreboard

/-- models/player.rs: `Player`. -/
structure Player where
  id : String
  name : String
  nickname : String
  avatar_emoji : String
deriving DecidableEq

/-- models/match_record.rs: `MatchRecord`.  `played_at` is the parsed
timestamp in milliseconds since the epoch (the source stores a
`DateTime<Utc>`; only its millisecond value is ever used). -/
structure MatchRecord where
  id : String
  winner1_id : String
  winner2_id : String
  loser1_id : String
  loser2_id : String
  winner_score : Option Int
  loser_score : Option Int
  comment : String
  recorded_by : String
  played_at : Nat
deriving DecidableEq

/-- Shorthand used by concrete test inputs: a match with the four
participant ids and defaults for the remaining fields. -/
def mkMatch (w1 w2 l1 l2 : String) : MatchRecord :=
  { id := "", winner1_id := w1, winner2_id := w2, loser1_id := l1,
    loser2_id := l2, winner_score := none, loser_score := none,
    comment := "", recorded_by := "", played_at := 0 }

/-! ## Streak calculation (routes/leaderboard.rs, `calculate_streak`) -/

/-- routes/leaderboard.rs `calculate_streak`: signed length of the run of
results equal to the newest (first) one. -/
def calculate_streak (results : List Bool) : Int :=
  match results with
  | [] => 0
  | first :: _ =>
    let count : Int := ((results.takeWhile (fun r => r == first)).length : Int)
    if first then count else -count

/-! ## Leaderboard tallies (routes/leaderboard.rs, `get_leaderboard`) -/

/-- Pointwise update of a map-as-function (one `HashMap` cell). -/
def updF {α : Type} (f : String → α) (k : String) (v : α) : String → α :=
  fun x => if x = k then v else f x

/-- The three `HashMap`s of `get_leaderboard` (`wins`, `losses`,
`last_results`), as total functions with the `or_default` values. -/
structure Tally where
  wins : String → Nat
  losses : String → Nat
  last_results : String → List Bool

/-- One iteration of `for winner_id in [&m.winner1_id, &m.winner2_id]`. -/
def tallyWinner (t : Tally) (wid : String) : Tally :=
  { t with
    wins := updF t.wins wid (t.wins wid + 1),
    last_results := updF t.last_results wid (t.last_results wid ++ [true]) }

/-- One iteration of `for loser_id in [&m.loser1_id, &m.loser2_id]`. -/
def tallyLoser (t : Tally) (lid : String) : Tally :=
  { t with
    losses := updF t.losses lid (t.losses lid + 1),
    last_results := updF t.last_results lid (t.last_results lid ++ [false]) }

/-- Body of `for m in &all_matches` in `get_leaderboard`. -/
def tallyMatch (t : Tally) (m : MatchRecord) : Tally :=
  tallyLoser (tallyLoser (tallyWinner (tallyWinner t m.winner1_id) m.winner2_id)
    m.loser1_id) m.loser2_id

def emptyTally : Tally :=
  { wins := fun _ => 0, losses := fun _ => 0, last_results := fun _ => [] }

/-- The whole tally loop of `get_leaderboard` over the match list
(newest-first, as returned by `list_matches`). -/
def tallyMatches (ms : List MatchRecord) : Tally :=
  ms.foldl tallyMatch emptyTally

/-- routes/leaderboard.rs `LeaderboardEntry` (win_rate as `ℚ`). -/
structure LeaderboardEntry where
  player_id : String
  player_name : String
  avatar_emoji : String
  nickname : String
  wins : Nat
  losses : Nat
  total_games : Nat
  win_rate : ℚ
  streak : Int
deriving DecidableEq

instance : Inhabited LeaderboardEntry :=
  ⟨{ player_id := "", player_name := "", avatar_emoji := "", nickname := "",
     wins := 0, losses := 0, total_games := 0, win_rate := 0, streak := 0 }⟩

/-- The per-player closure inside `all_players.iter().map(..)` of
`get_leaderboard`. -/
def mkEntry (t : Tally) (p : Player) : LeaderboardEntry :=
  let w := t.wins p.id
  let l := t.losses p.id
  let total := w + l
  let win_rate : ℚ := if 0 < total then (w : ℚ) / (total : ℚ) else 0
  let streak := calculate_streak (t.last_results p.id)
  { player_id := p.id, player_name := p.name, avatar_emoji := p.avatar_emoji,
    nickname := p.nickname, wins := w, losses := l, total_games := total,
    win_rate := win_rate, streak := streak }

/-- Three-way comparison on `ℚ` (the source's `partial_cmp` on `f64`;
on `ℚ` the comparison is always defined, so `unwrap_or(Equal)` never
fires). -/
def cmpQ (x y : ℚ) : Ordering :=
  if x < y then Ordering.lt else if x = y then Ordering.eq else Ordering.gt

/-- Three-way comparison on `Nat` (the source's `u32::cmp`). -/
def cmpNat (x y : Nat) : Ordering :=
  if x < y then Ordering.lt else if x = y then Ordering.eq else Ordering.gt

/-- The `sort_by` comparator of `get_leaderboard`: win rate descending,
then total games descending.  There is no further tie-break. -/
def entryCmp (a b : LeaderboardEntry) : Ordering :=
  (cmpQ b.win_rate a.win_rate).then (cmpNat b.total_games a.total_games)

/-- routes/leaderboard.rs `get_leaderboard`, as a pure function of the
roster and the match list: build the entries, then stable-sort them by
`entryCmp` (Rust `sort_by` is stable; `insertionSort` is its stable
model). -/
def get_leaderboard (players : List Player) (ms : List MatchRecord) :
    List LeaderboardEntry :=
  List.insertionSort (fun a b => entryCmp a b ≠ Ordering.gt)
    (players.map (mkEntry (tallyMatches ms)))

/-! ## Association lists modelling `HashMap` in insertion order -/

/-- `map.entry(k).or_default()` followed by a mutation `f`: update the
entry for `k` in place if present, else append a fresh entry `f d` at
the end (first-insertion order, the deterministic model of the map's
contents). -/
def updAssoc {κ α : Type} [DecidableEq κ] (d : α) (f : α → α) (k : κ) :
    List (κ × α) → List (κ × α)
  | [] => [(k, f d)]
  | (q, v) :: rest =>
    if q = k then (q, f v) :: rest else (q, v) :: updAssoc d f k rest

/-- Key lookup in the association list. -/
def lookupA {κ α : Type} [DecidableEq κ] (k : κ) :
    List (κ × α) → Option α
  | [] => none
  | (q, v) :: rest => if q = k then some v else lookupA k rest

/-! ## Rivalries (routes/leaderboard.rs, `get_rivalries`) -/

/-- Innermost body of the winner×loser double loop of `get_rivalries`:
canonicalize the directional pair and bump the matching counter. -/
def h2hRecordPair (h : List ((String × String) × (Nat × Nat)))
    (winner loser : String) : List ((String × String) × (Nat × Nat)) :=
  if winner < loser then
    updAssoc (0, 0) (fun p => (p.1 + 1, p.2)) (winner, loser) h
  else
    updAssoc (0, 0) (fun p => (p.1, p.2 + 1)) (loser, winner) h

/-- Body of `for m in &all_matches` in `get_rivalries`: the four
winner×loser cross pairs `(w1,l1), (w1,l2), (w2,l1), (w2,l2)` in the
source's iteration order. -/
def h2hMatch (h : List ((String × String) × (Nat × Nat))) (m : MatchRecord) :
    List ((String × String) × (Nat × Nat)) :=
  h2hRecordPair
    (h2hRecordPair
      (h2hRecordPair (h2hRecordPair h m.winner1_id m.loser1_id)
        m.winner1_id m.loser2_id)
      m.winner2_id m.loser1_id)
    m.winner2_id m.loser2_id

/-- The `h2h` map of `get_rivalries` after scanning the whole list. -/
def h2h (ms : List MatchRecord) : List ((String × String) × (Nat × Nat)) :=
  ms.foldl h2hMatch []

/-- routes/leaderboard.rs `get_rivalries` as a pure function: keep pairs
with at least 2 combined games, then stable-sort by total games
descending (names resolution omitted — it only decorates entries). -/
def get_rivalries (ms : List MatchRecord) :
    List ((String × String) × (Nat × Nat)) :=
  List.insertionSort
    (fun a b => cmpNat (b.2.1 + b.2.2) (a.2.1 + a.2.2) ≠ Ordering.gt)
    ((h2h ms).filter (fun e => decide (2 ≤ e.2.1 + e.2.2)))

/-! ## Per-player stats (routes/leaderboard.rs, `get_player_stats`) -/

/-- The loop state of `get_player_stats`: win/loss counters, the
newest-first result list, the partner and opponent record maps (in
insertion order) and the `recent` excerpt. -/
structure PlayerAgg where
  wins : Nat
  losses : Nat
  results : List Bool
  partner_record : List (String × (Nat × Nat))
  opponent_record : List (String × (Nat × Nat))
  recent : List MatchRecord

/-- Body of `for m in &all_matches` in `get_player_stats`. -/
def statsStep (pid : String) (a : PlayerAgg) (m : MatchRecord) : PlayerAgg :=
  let is_winner : Bool := m.winner1_id == pid || m.winner2_id == pid
  let is_loser : Bool := m.loser1_id == pid || m.loser2_id == pid
  if !is_winner && !is_loser then a
  else
    let a1 := if a.recent.length < 10 then
        { a with recent := a.recent ++ [m] } else a
    if is_winner then
      let pt := if m.winner1_id == pid then m.winner2_id else m.winner1_id
      { a1 with
        wins := a1.wins + 1,
        results := a1.results ++ [true],
        partner_record :=
          updAssoc (0, 0) (fun p => (p.1 + 1, p.2)) pt a1.partner_record,
        opponent_record :=
          updAssoc (0, 0) (fun p => (p.1 + 1, p.2)) m.loser2_id
            (updAssoc (0, 0) (fun p => (p.1 + 1, p.2)) m.loser1_id
              a1.opponent_record) }
    else
      let pt := if m.loser1_id == pid then m.loser2_id else m.loser1_id
      { a1 with
        losses := a1.losses + 1,
        results := a1.results ++ [false],
        partner_record :=
          updAssoc (0, 0) (fun p => (p.1, p.2 + 1)) pt a1.partner_record,
        opponent_record :=
          updAssoc (0, 0) (fun p => (p.1, p.2 + 1)) m.winner2_id
            (updAssoc (0, 0) (fun p => (p.1, p.2 + 1)) m.winner1_id
              a1.opponent_record) }

def emptyAgg : PlayerAgg :=
  { wins := 0, losses := 0, results := [], partner_record := [],
    opponent_record := [], recent := [] }

/-- The whole scan loop of `get_player_stats`. -/
def playerStatsAgg (pid : String) (ms : List MatchRecord) : PlayerAgg :=
  ms.foldl (statsStep pid) emptyAgg

/-- One step of Rust `Iterator::max_by_key`: keep the element with the
larger key; on ties keep the LATER element. -/
def maxStep {α : Type} (key : α → Nat) (acc : Option α) (x : α) : Option α :=
  match acc with
  | none => some x
  | some y => if key y ≤ key x then some x else some y

/-- Rust `Iterator::max_by_key` (`u32` key): the element with the
maximal key; among equal keys the LAST one in iteration order wins. -/
def max_by_key {α : Type} (key : α → Nat) (l : List α) : Option α :=
  l.foldl (maxStep key) none

/-- The `best_partner` selection of `get_player_stats`: filter the
partner record to teammates with at least 2 games together, then
`max_by_key` on wins together. -/
def best_partner (pid : String) (ms : List MatchRecord) :
    Option (String × (Nat × Nat)) :=
  max_by_key (fun e => e.2.1)
    (((playerStatsAgg pid ms).partner_record).filter
      (fun e => decide (2 ≤ e.2.1 + e.2.2)))

/-- The `nemesis` selection of `get_player_stats`: opponents with at
least 2 losses against, `max_by_key` on losses against. -/
def nemesis (pid : String) (ms : List MatchRecord) :
    Option (String × (Nat × Nat)) :=
  max_by_key (fun e => e.2.2)
    (((playerStatsAgg pid ms).opponent_record).filter
      (fun e => decide (2 ≤ e.2.2)))

/-- The numeric/selection part of the `PlayerStats` response (player
name, avatar, nickname and opponent names omitted — they only decorate
the entry and play no part in any computation). -/
structure PlayerStatsO where
  wins : Nat
  losses : Nat
  total_games : Nat
  win_rate : ℚ
  streak : Int
  best_partner : Option (String × (Nat × Nat))
  nemesis : Option (String × (Nat × Nat))
  recent_matches : List MatchRecord

/-- routes/leaderboard.rs `get_player_stats` as a pure function of the
focal player id and the match list. -/
def get_player_stats (pid : String) (ms : List MatchRecord) : PlayerStatsO :=
  let a := playerStatsAgg pid ms
  let total := a.wins + a.losses
  { wins := a.wins, losses := a.losses, total_games := total,
    win_rate := if 0 < total then (a.wins : ℚ) / (total : ℚ) else 0,
    streak := calculate_streak a.results,
    best_partner := best_partner pid ms,
    nemesis := nemesis pid ms,
    recent_matches := a.recent }

/-! ## Reverse-timestamp row keys (models/match_record.rs) -/

/-- models/match_record.rs `MAX_TIMESTAMP_MS` (year 9999 in ms). -/
def MAX_TIMESTAMP_MS : Nat := 253402300799999

/-- Fixed-width big-endian decimal digits of `n` (width `w`), the model
of `format!("{n:0w}")` digit by digit. -/
def digitsBE : Nat → Nat → List Nat
  | 0, _ => []
  | w + 1, n => n / 10 ^ w :: digitsBE w (n % 10 ^ w)

/-- models/match_record.rs `generate_match_row_key`, at the level of
character codes: the 20-digit zero-padded reverse timestamp (digit `d`
is code `d + 48`), an underscore (code 95), then the UUID suffix (an
arbitrary code list — the claims quantify over it). -/
def generate_match_row_key (ms : Nat) (uuidSuffix : List Nat) : List Nat :=
  ((digitsBE 20 (MAX_TIMESTAMP_MS - ms)).map (fun d => d + 48)) ++
    95 :: uuidSuffix

/-- Byte-wise lexicographic strict order on keys, exactly Azure's
RowKey comparison. -/
def KeyLt (k1 k2 : List Nat) : Prop :=
  List.Lex (fun a b : Nat => a < b) k1 k2

/-! ## Match listing (storage/matches.rs, `list_matches`) -/

/-- models/match_record.rs `MatchEntity` (the stored shape; `played_at`
still a string). -/
structure MatchEntity where
  row_key : String
  winner1_id : String
  winner2_id : String
  loser1_id : String
  loser2_id : String
  winner_score : Option Int
  loser_score : Option Int
  comment : String
  recorded_by : String
  played_at : String
deriving DecidableEq

/-- models/match_record.rs `TryFrom<MatchEntity> for MatchRecord`:
parse the stored timestamp, fail if it is malformed.  `parse` stands
for chrono's RFC-3339 parser (external code), yielding the millisecond
value. -/
def tryFromEntity (parse : String → Option Nat) (e : MatchEntity) :
    Option MatchRecord :=
  (parse e.played_at).map (fun t =>
    { id := e.row_key, winner1_id := e.winner1_id, winner2_id := e.winner2_id,
      loser1_id := e.loser1_id, loser2_id := e.loser2_id,
      winner_score := e.winner_score, loser_score := e.loser_score,
      comment := e.comment, recorded_by := e.recorded_by, played_at := t })

/-- `usize::MAX`, the sentinel for `limit.unwrap_or(usize::MAX)`. -/
def USIZE_MAX : Nat := 2 ^ 64 - 1

/-- The `for entity in page.entities` loop of `list_matches`: stop once
the limit is reached, otherwise parse and push, skipping malformed
entities. -/
def processPage (parse : String → Option Nat) (max : Nat)
    (acc : List MatchRecord) : List MatchEntity → List MatchRecord
  | [] => acc
  | e :: rest =>
    if max ≤ acc.length then acc
    else
      match tryFromEntity parse e with
      | some r => processPage parse max (acc ++ [r]) rest
      | none => processPage parse max acc rest

/-- The `while let Some(page_result) = stream.next()` loop of
`list_matches`: a failing page aborts with the storage error; after a
successful page, stop if the limit is reached. -/
def listMatchesGo (parse : String → Option Nat) (max : Nat)
    (acc : List MatchRecord) :
    List (Except String (List MatchEntity)) →
      Except String (List MatchRecord)
  | [] => Except.ok acc
  | page :: rest =>
    match page with
    | Except.error e => Except.error e
    | Except.ok entities =>
      let acc2 := processPage parse max acc entities
      if max ≤ acc2.length then Except.ok acc2
      else listMatchesGo parse max acc2 rest

/-- storage/matches.rs `list_matches`: the stored stream is modelled as
the list of its page results. -/
def list_matches (parse : String → Option Nat)
    (pages : List (Except String (List MatchEntity))) (limit : Option Nat) :
    Except String (List MatchRecord) :=
  listMatchesGo parse (limit.getD USIZE_MAX) [] pages

/-! ## Derived notions used to state and prove the claims -/

/-- Per-match contribution to the `wins` counter of `pid` in
`get_leaderboard` (one per winner slot equal to `pid`). -/
def winContrib (pid : String) (m : MatchRecord) : Nat :=
  (if pid = m.winner1_id then 1 else 0) + (if pid = m.winner2_id then 1 else 0)

/-- Per-match contribution to the `losses` counter of `pid`. -/
def lossContrib (pid : String) (m : MatchRecord) : Nat :=
  (if pid = m.loser1_id then 1 else 0) + (if pid = m.loser2_id then 1 else 0)

/-- Per-match contribution to `last_results[pid]`, in the source's push
order (winner slots, then loser slots). -/
def resContrib (pid : String) (m : MatchRecord) : List Bool :=
  ((if pid = m.winner1_id then [true] else []) ++
    (if pid = m.winner2_id then [true] else [])) ++
  ((if pid = m.loser1_id then [false] else []) ++
    (if pid = m.loser2_id then [false] else []))

/-- Map lookup with the `or_default` value `(0, 0)`. -/
def lookupVal {κ : Type} [DecidableEq κ] (k : κ)
    (h : List (κ × (Nat × Nat))) : Nat × Nat :=
  (lookupA k h).getD (0, 0)

/-- The key list of an association list. -/
def keys {κ α : Type} (h : List (κ × α)) : List κ := h.map Prod.fst

/-- Contribution of a single winner×loser cross pair to the `h2h`
counter at canonical key `(a, b)`. -/
def dirContrib (a b winner loser : String) : Nat × Nat :=
  if winner < loser then
    (if (a, b) = (winner, loser) then (1, 0) else (0, 0))
  else
    (if (a, b) = (loser, winner) then (0, 1) else (0, 0))

/-- Per-match contribution to the `h2h` counter at key `k`: the four
cross pairs of the match. -/
def matchContrib (k : String × String) (m : MatchRecord) : Nat × Nat :=
  dirContrib k.1 k.2 m.winner1_id m.loser1_id +
    dirContrib k.1 k.2 m.winner1_id m.loser2_id +
    dirContrib k.1 k.2 m.winner2_id m.loser1_id +
    dirContrib k.1 k.2 m.winner2_id m.loser2_id

/-- `x` is on the winning team of `m`. -/
def onWinners (x : String) (m : MatchRecord) : Prop :=
  m.winner1_id = x ∨ m.winner2_id = x

/-- `x` is on the losing team of `m`. -/
def onLosers (x : String) (m : MatchRecord) : Prop :=
  m.loser1_id = x ∨ m.loser2_id = x

/-- One member of the pair `{a, b}` is on the winning team of `m` and
the other on the losing team (for pairwise-distinct participants this
is "exactly one member wins and the other loses"). -/
def pairMeets (a b : String) (m : MatchRecord) : Prop :=
  (onWinners a m ∧ onLosers b m) ∨ (onWinners b m ∧ onLosers a m)

instance (x : String) (m : MatchRecord) : Decidable (onWinners x m) := by
  unfold onWinners; infer_instance

instance (x : String) (m : MatchRecord) : Decidable (onLosers x m) := by
  unfold onLosers; infer_instance

instance (a b : String) (m : MatchRecord) : Decidable (pairMeets a b m) := by
  unfold pairMeets; infer_instance

/-- The four participant identifiers of `m` are pairwise distinct. -/
def distinct4 (m : MatchRecord) : Prop :=
  m.winner1_id ≠ m.winner2_id ∧ m.loser1_id ≠ m.loser2_id ∧
  m.winner1_id ≠ m.loser1_id ∧ m.winner1_id ≠ m.loser2_id ∧
  m.winner2_id ≠ m.loser1_id ∧ m.winner2_id ≠ m.loser2_id

instance (m : MatchRecord) : Decidable (distinct4 m) := by
  unfold distinct4; infer_instance

/-- Swap the two winner slots of a match. -/
def swapWinners (m : MatchRecord) : MatchRecord :=
  { m with winner1_id := m.winner2_id, winner2_id := m.winner1_id }

/-- Swap the two loser slots of a match. -/
def swapLosers (m : MatchRecord) : MatchRecord :=
  { m with loser1_id := m.loser2_id, loser2_id := m.loser1_id }

/-- The `is_winner` test of `get_player_stats`. -/
def isWinnerB (pid : String) (m : MatchRecord) : Bool :=
  m.winner1_id == pid || m.winner2_id == pid

/-- The `is_loser` test of `get_player_stats`. -/
def isLoserB (pid : String) (m : MatchRecord) : Bool :=
  m.loser1_id == pid || m.loser2_id == pid

/-- The teammate of `pid` in the winner slots. -/
def partnerW (pid : String) (m : MatchRecord) : String :=
  if m.winner1_id == pid then m.winner2_id else m.winner1_id

/-- The teammate of `pid` in the loser slots. -/
def partnerL (pid : String) (m : MatchRecord) : String :=
  if m.loser1_id == pid then m.loser2_id else m.loser1_id

/-- Per-match contribution to `wins` in the `get_player_stats` path. -/
def pWinContrib (pid : String) (m : MatchRecord) : Nat :=
  if isWinnerB pid m then 1 else 0

/-- Per-match contribution to `losses` in the `get_player_stats` path. -/
def pLossContrib (pid : String) (m : MatchRecord) : Nat :=
  if isWinnerB pid m then 0 else if isLoserB pid m then 1 else 0

/-- Per-match contribution to `results` in the `get_player_stats` path. -/
def pResContrib (pid : String) (m : MatchRecord) : List Bool :=
  if isWinnerB pid m then [true] else if isLoserB pid m then [false] else []

/-- Per-match contribution to `partner_record[tid]`. -/
def pPartnerContrib (pid tid : String) (m : MatchRecord) : Nat × Nat :=
  if isWinnerB pid m then
    (if partnerW pid m = tid then (1, 0) else (0, 0))
  else if isLoserB pid m then
    (if partnerL pid m = tid then (0, 1) else (0, 0))
  else (0, 0)

/-- Per-match contribution to `opponent_record[oid]`. -/
def pOppContrib (pid oid : String) (m : MatchRecord) : Nat × Nat :=
  if isWinnerB pid m then
    ((if m.loser1_id = oid then 1 else 0) + (if m.loser2_id = oid then 1 else 0), 0)
  else if isLoserB pid m then
    (0, (if m.winner1_id = oid then 1 else 0) + (if m.winner2_id = oid then 1 else 0))
  else (0, 0)

/-! ## Concrete inputs used by witnesses and counterexamples -/

/-- A one-player roster used by witnesses. -/
def pW : Player :=
  { id := "w1", name := "W", nickname := "", avatar_emoji := "" }

/-- A small match list used by witnesses: two identical matches. -/
def msW : List MatchRecord :=
  [mkMatch "w1" "w2" "w3" "w4", mkMatch "w1" "w2" "w3" "w4"]

/-- Match list exposing the best-partner tie-break behaviour: partner
`q` ends with record (2, 0) and partner `r` with record (2, 1), both
eligible and tied on wins. -/
def msT : List MatchRecord :=
  [mkMatch "p" "q" "x" "y", mkMatch "p" "q" "x" "y",
   mkMatch "p" "r" "x" "y", mkMatch "p" "r" "x" "y",
   mkMatch "x" "y" "p" "r"]

/-- A concrete stand-in for the external timestamp parser in witnesses:
accepts exactly the string "epoch". -/
def parseW : String → Option Nat :=
  fun s => if s = "epoch" then some 0 else none

/-- A stored entity with a parseable timestamp. -/
def entGood : MatchEntity :=
  { row_key := "k1", winner1_id := "a", winner2_id := "b", loser1_id := "c",
    loser2_id := "d", winner_score := none, loser_score := none,
    comment := "", recorded_by := "", played_at := "epoch" }

/-- A stored entity with a malformed timestamp. -/
def entBad : MatchEntity :=
  { row_key := "k2", winner1_id := "a", winner2_id := "b", loser1_id := "c",
    loser2_id := "d", winner_score := none, loser_score := none,
    comment := "", recorded_by := "", played_at := "garbage" }

/-- One successful page holding a good and a malformed entity. -/
def pagesW : List (Except String (List MatchEntity)) :=
  [Except.ok [entGood, entBad]]

/-- Roster entry "a" (0 wins, 1 loss in `msC1`). -/
def paC : Player := { id := "a", name := "A", nickname := "", avatar_emoji := "" }

/-- Roster entry "b" (no games). -/
def pbC : Player := { id := "b", name := "B", nickname := "", avatar_emoji := "" }

/-- One match in which player "a" loses. -/
def msC1 : List MatchRecord := [mkMatch "b" "c" "a" "d"]

/-! ## Association-list lemmas -/

theorem lookupA_updAssoc {κ α : Type} [DecidableEq κ] (d : α) (f : α → α)
    (k k' : κ) (h : List (κ × α)) :
    lookupA k' (updAssoc d f k h) =
      if k = k' then some (f ((lookupA k' h).getD d)) else lookupA k' h := by
  induction h with
  | nil =>
    by_cases hk : k = k' <;> simp [updAssoc, lookupA, hk]
  | cons hd tl ih =>
    obtain ⟨q, v⟩ := hd
    by_cases hq : q = k
    · subst hq
      by_cases hk : q = k' <;> simp [updAssoc, lookupA, hk]
    · by_cases hk' : q = k'
      · subst hk'
        have hkq : ¬ k = q := fun hh => hq hh.symm
        simp [updAssoc, lookupA, hq, hkq]
      · simp [updAssoc, lookupA, hq, hk', ih]

theorem mem_of_lookupA {κ α : Type} [DecidableEq κ] {k : κ} {v : α}
    {h : List (κ × α)} (hl : lookupA k h = some v) : (k, v) ∈ h := by
  induction h with
  | nil => simp [lookupA] at hl
  | cons hd tl ih =>
    obtain ⟨q, w⟩ := hd
    by_cases hq : q = k
    · subst hq
      simp [lookupA] at hl
      simp [hl]
    · simp [lookupA, hq] at hl
      exact List.mem_cons_of_mem _ (ih hl)

theorem mem_keys {κ α : Type} (x : κ) (h : List (κ × α)) :
    x ∈ keys h ↔ ∃ v, (x, v) ∈ h := by
  constructor
  · intro hm
    simp only [keys, List.mem_map] at hm
    obtain ⟨⟨a, b⟩, hab, hax⟩ := hm
    exact ⟨b, by simpa [← hax] using hab⟩
  · rintro ⟨v, hv⟩
    simpa [keys] using List.mem_map_of_mem Prod.fst hv

theorem keys_cons {κ α : Type} (q : κ) (v : α) (tl : List (κ × α)) :
    keys ((q, v) :: tl) = q :: keys tl := rfl

theorem lookupA_eq_of_mem_nodup {κ α : Type} [DecidableEq κ] {k : κ} {v : α} :
    ∀ {h : List (κ × α)}, (keys h).Nodup → (k, v) ∈ h → lookupA k h = some v := by
  intro h
  induction h with
  | nil => intro _ hm; simp at hm
  | cons hd tl ih =>
    obtain ⟨q, w⟩ := hd
    intro hnd hm
    rw [keys_cons, List.nodup_cons] at hnd
    rcases List.mem_cons.1 hm with hm | hm
    · rw [Prod.mk.injEq] at hm
      simp [lookupA, hm.1.symm, hm.2]
    · have hkq : q ≠ k := by
        intro hqk
        subst hqk
        exact hnd.1 ((mem_keys q tl).2 ⟨v, hm⟩)
      simp only [lookupA, if_neg hkq]
      exact ih hnd.2 hm

theorem mem_keys_updAssoc {κ α : Type} [DecidableEq κ] (d : α) (f : α → α)
    (k x : κ) : ∀ (h : List (κ × α)),
    x ∈ keys (updAssoc d f k h) ↔ x ∈ keys h ∨ x = k := by
  intro h
  induction h with
  | nil => simp [updAssoc, keys]
  | cons hd tl ih =>
    obtain ⟨q, v⟩ := hd
    by_cases hq : q = k
    · rw [show updAssoc d f k ((q, v) :: tl) = (q, f v) :: tl by
        simp [updAssoc, hq]]
      rw [keys_cons, keys_cons]
      simp only [List.mem_cons]
      constructor
      · rintro (hx | hx)
        · exact Or.inl (Or.inl hx)
        · exact Or.inl (Or.inr hx)
      · rintro ((hx | hx) | hx)
        · exact Or.inl hx
        · exact Or.inr hx
        · subst hx; subst hq; exact Or.inl rfl
    · rw [show updAssoc d f k ((q, v) :: tl) = (q, v) :: updAssoc d f k tl by
        simp [updAssoc, hq]]
      rw [keys_cons, keys_cons]
      simp only [List.mem_cons, ih]
      tauto

theorem nodup_keys_updAssoc {κ α : Type} [DecidableEq κ] (d : α) (f : α → α)
    (k : κ) : ∀ {h : List (κ × α)},
    (keys h).Nodup → (keys (updAssoc d f k h)).Nodup := by
  intro h
  induction h with
  | nil => intro _; simp [updAssoc, keys]
  | cons hd tl ih =>
    obtain ⟨q, v⟩ := hd
    intro hnd
    rw [keys_cons, List.nodup_cons] at hnd
    by_cases hq : q = k
    · rw [show updAssoc d f k ((q, v) :: tl) = (q, f v) :: tl by
        simp [updAssoc, hq]]
      rw [keys_cons, List.nodup_cons]
      exact hnd
    · rw [show updAssoc d f k ((q, v) :: tl) = (q, v) :: updAssoc d f k tl by
        simp [updAssoc, hq]]
      rw [keys_cons, List.nodup_cons]
      refine ⟨?_, ih hnd.2⟩
      intro hc
      rcases (mem_keys_updAssoc d f k q tl).1 hc with hm | hm
      · exact hnd.1 hm
      · exact hq hm

theorem lookupVal_upd_fst (k k' : String × String)
    (h : List ((String × String) × (Nat × Nat))) :
    lookupVal k' (updAssoc (0, 0) (fun p => (p.1 + 1, p.2)) k h) =
      lookupVal k' h + (if k = k' then (1, 0) else (0, 0)) := by
  unfold lookupVal
  rw [lookupA_updAssoc]
  by_cases hk : k = k' <;> simp [hk, Prod.ext_iff]

theorem lookupVal_upd_snd (k k' : String × String)
    (h : List ((String × String) × (Nat × Nat))) :
    lookupVal k' (updAssoc (0, 0) (fun p => (p.1, p.2 + 1)) k h) =
      lookupVal k' h + (if k = k' then (0, 1) else (0, 0)) := by
  unfold lookupVal
  rw [lookupA_updAssoc]
  by_cases hk : k = k' <;> simp [hk, Prod.ext_iff]

theorem lookupValS_upd_fst (k k' : String)
    (h : List (String × (Nat × Nat))) :
    lookupVal k' (updAssoc (0, 0) (fun p => (p.1 + 1, p.2)) k h) =
      lookupVal k' h + (if k = k' then (1, 0) else (0, 0)) := by
  unfold lookupVal
  rw [lookupA_updAssoc]
  by_cases hk : k = k' <;> simp [hk, Prod.ext_iff]

theorem lookupValS_upd_snd (k k' : String)
    (h : List (String × (Nat × Nat))) :
    lookupVal k' (updAssoc (0, 0) (fun p => (p.1, p.2 + 1)) k h) =
      lookupVal k' h + (if k = k' then (0, 1) else (0, 0)) := by
  unfold lookupVal
  rw [lookupA_updAssoc]
  by_cases hk : k = k' <;> simp [hk, Prod.ext_iff]

/-! ## Characterization of the leaderboard tallies -/

theorem tallyMatch_wins (t : Tally) (m : MatchRecord) (pid : String) :
    (tallyMatch t m).wins pid = t.wins pid + winContrib pid m := by
  simp only [tallyMatch, tallyLoser, tallyWinner, updF, winContrib]
  split_ifs <;> simp_all

theorem tallyMatch_losses (t : Tally) (m : MatchRecord) (pid : String) :
    (tallyMatch t m).losses pid = t.losses pid + lossContrib pid m := by
  simp only [tallyMatch, tallyLoser, tallyWinner, updF, lossContrib]
  split_ifs <;> simp_all

theorem tallyMatch_results (t : Tally) (m : MatchRecord) (pid : String) :
    (tallyMatch t m).last_results pid = t.last_results pid ++ resContrib pid m := by
  simp only [tallyMatch, tallyLoser, tallyWinner, updF, resContrib]
  split_ifs <;> simp_all

theorem foldl_tally_wins (pid : String) :
    ∀ (ms : List MatchRecord) (t : Tally),
      (ms.foldl tallyMatch t).wins pid =
        t.wins pid + (ms.map (winContrib pid)).sum := by
  intro ms
  induction ms with
  | nil => intro t; simp
  | cons m rest ih =>
    intro t
    simp only [List.foldl_cons, List.map_cons, List.sum_cons]
    rw [ih, tallyMatch_wins]
    omega

theorem foldl_tally_losses (pid : String) :
    ∀ (ms : List MatchRecord) (t : Tally),
      (ms.foldl tallyMatch t).losses pid =
        t.losses pid + (ms.map (lossContrib pid)).sum := by
  intro ms
  induction ms with
  | nil => intro t; simp
  | cons m rest ih =>
    intro t
    simp only [List.foldl_cons, List.map_cons, List.sum_cons]
    rw [ih, tallyMatch_losses]
    omega

theorem foldl_tally_results (pid : String) :
    ∀ (ms : List MatchRecord) (t : Tally),
      (ms.foldl tallyMatch t).last_results pid =
        t.last_results pid ++ (ms.map (resContrib pid)).flatten := by
  intro ms
  induction ms with
  | nil => intro t; simp
  | cons m rest ih =>
    intro t
    simp only [List.foldl_cons, List.map_cons, List.flatten_cons]
    rw [ih, tallyMatch_results, List.append_assoc]

theorem tallyMatches_wins (ms : List MatchRecord) (pid : String) :
    (tallyMatches ms).wins pid = (ms.map (winContrib pid)).sum := by
  unfold tallyMatches
  rw [foldl_tally_wins]
  simp [emptyTally]

theorem tallyMatches_losses (ms : List MatchRecord) (pid : String) :
    (tallyMatches ms).losses pid = (ms.map (lossContrib pid)).sum := by
  unfold tallyMatches
  rw [foldl_tally_losses]
  simp [emptyTally]

theorem tallyMatches_results (ms : List MatchRecord) (pid : String) :
    (tallyMatches ms).last_results pid = (ms.map (resContrib pid)).flatten := by
  unfold tallyMatches
  rw [foldl_tally_results]
  simp [emptyTally]

/-! ## Characterization of the h2h counters -/

theorem h2hRecordPair_lookupVal (h : List ((String × String) × (Nat × Nat)))
    (w l : String) (k : String × String) :
    lookupVal k (h2hRecordPair h w l) = lookupVal k h + dirContrib k.1 k.2 w l := by
  unfold h2hRecordPair dirContrib
  by_cases hwl : w < l
  · rw [if_pos hwl, if_pos hwl, lookupVal_upd_fst]
    by_cases hk : (w, l) = k
    · rw [if_pos hk, if_pos (by rw [← hk])]
    · rw [if_neg hk, if_neg (by intro hc; exact hk (by
        obtain ⟨k1, k2⟩ := k
        simpa [Prod.ext_iff, eq_comm] using hc))]
  · rw [if_neg hwl, if_neg hwl, lookupVal_upd_snd]
    by_cases hk : (l, w) = k
    · rw [if_pos hk, if_pos (by rw [← hk])]
    · rw [if_neg hk, if_neg (by intro hc; exact hk (by
        obtain ⟨k1, k2⟩ := k
        simpa [Prod.ext_iff, eq_comm] using hc))]

theorem h2hMatch_lookupVal (h : List ((String × String) × (Nat × Nat)))
    (m : MatchRecord) (k : String × String) :
    lookupVal k (h2hMatch h m) = lookupVal k h + matchContrib k m := by
  unfold h2hMatch matchContrib
  rw [h2hRecordPair_lookupVal, h2hRecordPair_lookupVal,
    h2hRecordPair_lookupVal, h2hRecordPair_lookupVal]
  abel

theorem foldl_h2h_lookupVal (k : String × String) :
    ∀ (ms : List MatchRecord) (h : List ((String × String) × (Nat × Nat))),
      lookupVal k (ms.foldl h2hMatch h) =
        lookupVal k h + (ms.map (matchContrib k)).sum := by
  intro ms
  induction ms with
  | nil => intro h; simp
  | cons m rest ih =>
    intro h
    simp only [List.foldl_cons, List.map_cons, List.sum_cons]
    rw [ih, h2hMatch_lookupVal, add_assoc]

theorem h2h_lookupVal (ms : List MatchRecord) (k : String × String) :
    lookupVal k (h2h ms) = (ms.map (matchContrib k)).sum := by
  unfold h2h
  rw [foldl_h2h_lookupVal]
  simp [lookupVal, lookupA]

/-! ## Characterization of the per-player stats aggregation -/

theorem statsStep_wins (pid : String) (a : PlayerAgg) (m : MatchRecord) :
    (statsStep pid a m).wins = a.wins + pWinContrib pid m := by
  simp only [statsStep, pWinContrib]
  rw [show (m.winner1_id == pid || m.winner2_id == pid) = isWinnerB pid m from rfl]
  rw [show (m.loser1_id == pid || m.loser2_id == pid) = isLoserB pid m from rfl]
  cases hw : isWinnerB pid m <;> cases hl : isLoserB pid m <;>
    simp [hw, hl] <;> split <;> simp

theorem statsStep_losses (pid : String) (a : PlayerAgg) (m : MatchRecord) :
    (statsStep pid a m).losses = a.losses + pLossContrib pid m := by
  simp only [statsStep, pLossContrib]
  rw [show (m.winner1_id == pid || m.winner2_id == pid) = isWinnerB pid m from rfl]
  rw [show (m.loser1_id == pid || m.loser2_id == pid) = isLoserB pid m from rfl]
  cases hw : isWinnerB pid m <;> cases hl : isLoserB pid m <;>
    simp [hw, hl] <;> split <;> simp

theorem statsStep_results (pid : String) (a : PlayerAgg) (m : MatchRecord) :
    (statsStep pid a m).results = a.results ++ pResContrib pid m := by
  simp only [statsStep, pResContrib]
  rw [show (m.winner1_id == pid || m.winner2_id == pid) = isWinnerB pid m from rfl]
  rw [show (m.loser1_id == pid || m.loser2_id == pid) = isLoserB pid m from rfl]
  cases hw : isWinnerB pid m <;> cases hl : isLoserB pid m <;>
    simp [hw, hl] <;> split <;> simp

theorem statsStep_partner (pid tid : String) (a : PlayerAgg) (m : MatchRecord) :
    lookupVal tid (statsStep pid a m).partner_record =
      lookupVal tid a.partner_record + pPartnerContrib pid tid m := by
  simp only [statsStep, pPartnerContrib]
  rw [show (m.winner1_id == pid || m.winner2_id == pid) = isWinnerB pid m from rfl]
  rw [show (m.loser1_id == pid || m.loser2_id == pid) = isLoserB pid m from rfl]
  cases hw : isWinnerB pid m <;> cases hl : isLoserB pid m <;>
    simp [hw, hl, -Prod.mk_zero_zero]
  all_goals ((first | rw [lookupValS_upd_fst] | rw [lookupValS_upd_snd]) <;>
    split_ifs <;> simp_all [partnerW, partnerL, -Prod.mk_zero_zero])

theorem statsStep_opponent (pid oid : String) (a : PlayerAgg) (m : MatchRecord) :
    lookupVal oid (statsStep pid a m).opponent_record =
      lookupVal oid a.opponent_record + pOppContrib pid oid m := by
  simp only [statsStep, pOppContrib]
  rw [show (m.winner1_id == pid || m.winner2_id == pid) = isWinnerB pid m from rfl]
  rw [show (m.loser1_id == pid || m.loser2_id == pid) = isLoserB pid m from rfl]
  cases hw : isWinnerB pid m <;> cases hl : isLoserB pid m <;>
    simp [hw, hl, -Prod.mk_zero_zero]
  all_goals ((first
      | rw [lookupValS_upd_fst, lookupValS_upd_fst]
      | rw [lookupValS_upd_snd, lookupValS_upd_snd]) <;>
    split_ifs <;> simp_all [Prod.ext_iff, -Prod.mk_zero_zero])

theorem foldl_stats_wins (pid : String) :
    ∀ (ms : List MatchRecord) (a : PlayerAgg),
      (ms.foldl (statsStep pid) a).wins =
        a.wins + (ms.map (pWinContrib pid)).sum := by
  intro ms
  induction ms with
  | nil => intro a; simp
  | cons m rest ih =>
    intro a
    simp only [List.foldl_cons, List.map_cons, List.sum_cons]
    rw [ih, statsStep_wins]
    omega

theorem foldl_stats_losses (pid : String) :
    ∀ (ms : List MatchRecord) (a : PlayerAgg),
      (ms.foldl (statsStep pid) a).losses =
        a.losses + (ms.map (pLossContrib pid)).sum := by
  intro ms
  induction ms with
  | nil => intro a; simp
  | cons m rest ih =>
    intro a
    simp only [List.foldl_cons, List.map_cons, List.sum_cons]
    rw [ih, statsStep_losses]
    omega

theorem foldl_stats_results (pid : String) :
    ∀ (ms : List MatchRecord) (a : PlayerAgg),
      (ms.foldl (statsStep pid) a).results =
        a.results ++ (ms.map (pResContrib pid)).flatten := by
  intro ms
  induction ms with
  | nil => intro a; simp
  | cons m rest ih =>
    intro a
    simp only [List.foldl_cons, List.map_cons, List.flatten_cons]
    rw [ih, statsStep_results, List.append_assoc]

theorem foldl_stats_partner (pid tid : String) :
    ∀ (ms : List MatchRecord) (a : PlayerAgg),
      lookupVal tid (ms.foldl (statsStep pid) a).partner_record =
        lookupVal tid a.partner_record +
          (ms.map (pPartnerContrib pid tid)).sum := by
  intro ms
  induction ms with
  | nil => intro a; simp
  | cons m rest ih =>
    intro a
    simp only [List.foldl_cons, List.map_cons, List.sum_cons]
    rw [ih, statsStep_partner, add_assoc]

theorem foldl_stats_opponent (pid oid : String) :
    ∀ (ms : List MatchRecord) (a : PlayerAgg),
      lookupVal oid (ms.foldl (statsStep pid) a).opponent_record =
        lookupVal oid a.opponent_record +
          (ms.map (pOppContrib pid oid)).sum := by
  intro ms
  induction ms with
  | nil => intro a; simp
  | cons m rest ih =>
    intro a
    simp only [List.foldl_cons, List.map_cons, List.sum_cons]
    rw [ih, statsStep_opponent, add_assoc]

theorem playerStatsAgg_wins (pid : String) (ms : List MatchRecord) :
    (playerStatsAgg pid ms).wins = (ms.map (pWinContrib pid)).sum := by
  unfold playerStatsAgg
  rw [foldl_stats_wins]
  simp [emptyAgg]

theorem playerStatsAgg_losses (pid : String) (ms : List MatchRecord) :
    (playerStatsAgg pid ms).losses = (ms.map (pLossContrib pid)).sum := by
  unfold playerStatsAgg
  rw [foldl_stats_losses]
  simp [emptyAgg]

theorem playerStatsAgg_results (pid : String) (ms : List MatchRecord) :
    (playerStatsAgg pid ms).results = (ms.map (pResContrib pid)).flatten := by
  unfold playerStatsAgg
  rw [foldl_stats_results]
  simp [emptyAgg]

theorem playerStatsAgg_partner (pid tid : String) (ms : List MatchRecord) :
    lookupVal tid (playerStatsAgg pid ms).partner_record =
      (ms.map (pPartnerContrib pid tid)).sum := by
  unfold playerStatsAgg
  rw [foldl_stats_partner]
  simp [emptyAgg, lookupVal, lookupA]

theorem playerStatsAgg_opponent (pid oid : String) (ms : List MatchRecord) :
    lookupVal oid (playerStatsAgg pid ms).opponent_record =
      (ms.map (pOppContrib pid oid)).sum := by
  unfold playerStatsAgg
  rw [foldl_stats_opponent]
  simp [emptyAgg, lookupVal, lookupA]

/-! ## Streak helper lemmas -/

theorem dropWhile_head?_false {α : Type} (p : α → Bool) :
    ∀ (l : List α) (x : α), (l.dropWhile p).head? = some x → p x = false := by
  intro l
  induction l with
  | nil => intro x hx; simp [List.dropWhile] at hx
  | cons a t ih =>
    intro x hx
    by_cases ha : p a
    · rw [List.dropWhile_cons_of_pos ha] at hx
      exact ih x hx
    · rw [List.dropWhile_cons_of_neg ha] at hx
      simp at hx
      subst hx
      exact Bool.eq_false_iff.2 ha

theorem streak_run (b : Bool) (rest : List Bool) : ∃ n tl,
    b :: rest = List.replicate n b ++ tl ∧ 0 < n ∧ tl.head? ≠ some b ∧
    calculate_streak (b :: rest) = if b then (n : Int) else -(n : Int) := by
  refine ⟨((b :: rest).takeWhile (fun r => r == b)).length,
    (b :: rest).dropWhile (fun r => r == b), ?_, ?_, ?_, ?_⟩
  · have h1 : (b :: rest).takeWhile (fun r => r == b) =
        List.replicate ((b :: rest).takeWhile (fun r => r == b)).length b := by
      apply List.eq_replicate_of_mem
      intro x hx
      have := List.mem_takeWhile_imp hx
      simpa using this
    conv_lhs => rw [← List.takeWhile_append_dropWhile
      (p := fun r => r == b) (l := b :: rest)]
    rw [← h1]
  · simp [List.takeWhile_cons]
  · intro hc
    have := dropWhile_head?_false (fun r => r == b) (b :: rest) b hc
    simp at this
  · simp only [calculate_streak]

/-! ## Win-rate helper lemma -/

theorem rate_props (w l : Nat) :
    (0 : ℚ) ≤ (if 0 < w + l then (w : ℚ) / ((w + l : Nat) : ℚ) else 0) ∧
    (if 0 < w + l then (w : ℚ) / ((w + l : Nat) : ℚ) else 0) ≤ 1 ∧
    (w + l = 0 → (if 0 < w + l then (w : ℚ) / ((w + l : Nat) : ℚ) else 0) = 0) ∧
    ((if 0 < w + l then (w : ℚ) / ((w + l : Nat) : ℚ) else 0) = 0 ↔ w = 0) := by
  by_cases h : 0 < w + l
  · have hpos : (0 : ℚ) < ((w + l : Nat) : ℚ) := by
      exact_mod_cast h
    have hle : (w : ℚ) ≤ ((w + l : Nat) : ℚ) := by
      exact_mod_cast Nat.le_add_right w l
    refine ⟨?_, ?_, ?_, ?_⟩
    · rw [if_pos h]
      exact div_nonneg (by positivity) (le_of_lt hpos)
    · rw [if_pos h]
      exact (div_le_one hpos).2 hle
    · intro h0; omega
    · rw [if_pos h]
      rw [div_eq_zero_iff]
      constructor
      · rintro (hz | hz)
        · exact_mod_cast hz
        · exact absurd hz (ne_of_gt hpos)
      · intro hw; exact Or.inl (by exact_mod_cast hw)
  · have hw : w = 0 := by omega
    subst hw
    simp [h]

/-! ## Comparator helper lemmas -/

theorem cmpQ_eq_iff (x y : ℚ) : cmpQ x y = Ordering.eq ↔ x = y := by
  unfold cmpQ
  split_ifs with h1 h2
  · exact iff_of_false (by decide) (ne_of_lt h1)
  · exact iff_of_true rfl h2
  · exact iff_of_false (by decide) h2

theorem cmpNat_eq_iff (x y : Nat) : cmpNat x y = Ordering.eq ↔ x = y := by
  unfold cmpNat
  split_ifs with h1 h2
  · exact iff_of_false (by decide) (Nat.ne_of_lt h1)
  · exact iff_of_true rfl h2
  · exact iff_of_false (by decide) h2

theorem cmpQ_lt_gt (x y : ℚ) : cmpQ x y = Ordering.lt ↔ cmpQ y x = Ordering.gt := by
  unfold cmpQ
  rcases lt_trichotomy x y with h | h | h
  · rw [if_pos h, if_neg (not_lt_of_gt h), if_neg (ne_of_gt h)]
    exact iff_of_true rfl rfl
  · subst h
    simp [lt_irrefl]
  · rw [if_neg (not_lt_of_gt h), if_neg (ne_of_gt h), if_pos h]
    exact iff_of_false (by decide) (by decide)

theorem cmpNat_lt_gt (x y : Nat) : cmpNat x y = Ordering.lt ↔ cmpNat y x = Ordering.gt := by
  unfold cmpNat
  rcases lt_trichotomy x y with h | h | h
  · rw [if_pos h, if_neg (not_lt_of_gt h), if_neg (ne_of_gt h)]
    exact iff_of_true rfl rfl
  · subst h
    simp [lt_irrefl]
  · rw [if_neg (not_lt_of_gt h), if_neg (ne_of_gt h), if_pos h]
    exact iff_of_false (by decide) (by decide)

theorem ordering_then_eq (o1 o2 : Ordering) :
    o1.then o2 = Ordering.eq ↔ o1 = Ordering.eq ∧ o2 = Ordering.eq := by
  cases o1 <;> simp [Ordering.then]

/-! ## Claim theorems -/

/-- C2: the streak calculator returns 0 on the empty sequence, matches
the two worked examples, and in general returns the signed length of
the maximal run of values equal to the first (newest) element —
positive for a win, negative for a loss. -/
theorem claim_c2_streak :
    calculate_streak [] = 0 ∧
    calculate_streak [true, true, false] = 2 ∧
    calculate_streak [false, false, false, true] = -3 ∧
    ∀ (b : Bool) (rest : List Bool), ∃ n tl,
      b :: rest = List.replicate n b ++ tl ∧ 0 < n ∧ tl.head? ≠ some b ∧
      calculate_streak (b :: rest) = if b then (n : Int) else -(n : Int) :=
  ⟨by decide, by decide, by decide, streak_run⟩

/-- C2 witness: the general part of the claim instantiated at the
concrete newest-first sequence [false, false, true]. -/
theorem claim_c2_streak_witness :
    ∃ n tl, (false : Bool) :: [false, true] = List.replicate n false ++ tl ∧
      0 < n ∧ tl.head? ≠ some false ∧
      calculate_streak (false :: [false, true]) =
        if false then (n : Int) else -(n : Int) :=
  claim_c2_streak.2.2.2 false [false, true]


/-- C1 (amended): every leaderboard entry and every per-player stats
result satisfies wins + losses = total_games, win_rate ∈ [0, 1], and
win_rate = 0 when total_games = 0; more precisely win_rate = 0 exactly
when wins = 0 (the division is guarded by total > 0, so the value is
always a well-defined rational).  The original "win_rate = 0 exactly
when total_games = 0" fails: see the counterexample. -/
theorem claim_c1_rate_invariants :
    ∀ (players : List Player) (ms : List MatchRecord)
      (e : LeaderboardEntry) (pid : String),
    (e ∈ get_leaderboard players ms →
      e.wins + e.losses = e.total_games ∧
      0 ≤ e.win_rate ∧ e.win_rate ≤ 1 ∧
      (e.total_games = 0 → e.win_rate = 0) ∧
      (e.win_rate = 0 ↔ e.wins = 0)) ∧
    ((get_player_stats pid ms).wins + (get_player_stats pid ms).losses =
        (get_player_stats pid ms).total_games ∧
      0 ≤ (get_player_stats pid ms).win_rate ∧
      (get_player_stats pid ms).win_rate ≤ 1 ∧
      ((get_player_stats pid ms).total_games = 0 →
        (get_player_stats pid ms).win_rate = 0) ∧
      ((get_player_stats pid ms).win_rate = 0 ↔
        (get_player_stats pid ms).wins = 0)) := by
  intro players ms e pid
  constructor
  · intro hmem
    unfold get_leaderboard at hmem
    rw [List.mem_insertionSort] at hmem
    obtain ⟨p, _, rfl⟩ := List.mem_map.1 hmem
    have h := rate_props ((tallyMatches ms).wins p.id) ((tallyMatches ms).losses p.id)
    refine ⟨rfl, h.1, h.2.1, h.2.2.1, h.2.2.2⟩
  · have h := rate_props (playerStatsAgg pid ms).wins (playerStatsAgg pid ms).losses
    exact ⟨rfl, h.1, h.2.1, h.2.2.1, h.2.2.2⟩

/-- C1 counterexample: in `msC1` player "a" has 0 wins and 1 loss, so
its entry has win_rate = 0 while total_games = 1 ≠ 0: "win_rate = 0
exactly when total_games = 0" is false as stated. -/
theorem claim_c1_counterexample :
    ((get_leaderboard [paC] msC1).headI).win_rate = 0 ∧
    ((get_leaderboard [paC] msC1).headI).total_games ≠ 0 := by
  have he : get_leaderboard [paC] msC1 = [mkEntry (tallyMatches msC1) paC] := rfl
  constructor
  · rw [he]
    show (mkEntry (tallyMatches msC1) paC).win_rate = 0
    have hw : (tallyMatches msC1).wins paC.id = 0 := by decide
    have hl : (tallyMatches msC1).losses paC.id = 1 := by decide
    simp [mkEntry, hw, hl]
  · rw [he]
    show (mkEntry (tallyMatches msC1) paC).total_games ≠ 0
    have hw : (tallyMatches msC1).wins paC.id = 0 := by decide
    have hl : (tallyMatches msC1).losses paC.id = 1 := by decide
    simp [mkEntry, hw, hl]

/-- C1 witness: the amended claim applied to the roster `[pW]` and the
match list `msW`, the membership hypothesis discharged on the only
entry of the resulting leaderboard. -/
theorem claim_c1_witness :
    (get_leaderboard [pW] msW).headI.wins +
        (get_leaderboard [pW] msW).headI.losses =
      (get_leaderboard [pW] msW).headI.total_games ∧
    ((get_player_stats "w1" msW).win_rate = 0 ↔
      (get_player_stats "w1" msW).wins = 0) :=
  ⟨((claim_c1_rate_invariants [pW] msW ((get_leaderboard [pW] msW).headI)
      "w1").1 (by
        rw [show get_leaderboard [pW] msW = [mkEntry (tallyMatches msW) pW]
          from rfl]
        exact List.mem_singleton.2 rfl)).1,
    (claim_c1_rate_invariants [pW] msW ((get_leaderboard [pW] msW).headI)
      "w1").2.2.2.2.2⟩

/-- C3 counterexample: two distinct zero-game players produce distinct
entries that the leaderboard comparator ranks as Ordering.eq — the
comparator has no identifier tie-break, so two distinct players can
compare as "equal" with ambiguous order. -/
theorem claim_c3_counterexample :
    get_leaderboard [paC, pbC] [] =
      [mkEntry (tallyMatches []) paC, mkEntry (tallyMatches []) pbC] ∧
    entryCmp (mkEntry (tallyMatches []) paC) (mkEntry (tallyMatches []) pbC) =
      Ordering.eq ∧
    (mkEntry (tallyMatches []) paC).player_id ≠
      (mkEntry (tallyMatches []) pbC).player_id := by
  refine ⟨rfl, rfl, by decide⟩

/-- C3 (amended): the comparator actually used by the sort is a
deterministic total preorder — win_rate descending then total_games
descending; it returns Ordering.eq exactly when both win_rate and
total_games agree, independently of the player identifiers (the code
has no identifier tie-break; the stable sort keeps tied entries in
roster order). -/
theorem claim_c3_comparator :
    ∀ a b : LeaderboardEntry,
    (entryCmp a b = Ordering.eq ↔
      a.win_rate = b.win_rate ∧ a.total_games = b.total_games) ∧
    (entryCmp a b = Ordering.lt ↔ entryCmp b a = Ordering.gt) := by
  intro a b
  constructor
  · unfold entryCmp
    rw [ordering_then_eq, cmpQ_eq_iff, cmpNat_eq_iff]
    constructor
    · rintro ⟨h1, h2⟩; exact ⟨h1.symm, h2.symm⟩
    · rintro ⟨h1, h2⟩; exact ⟨h1.symm, h2.symm⟩
  · unfold entryCmp
    rcases lt_trichotomy b.win_rate a.win_rate with h | h | h
    · have h1 : cmpQ b.win_rate a.win_rate = Ordering.lt := by
        unfold cmpQ; rw [if_pos h]
      have h2 : cmpQ a.win_rate b.win_rate = Ordering.gt := by
        unfold cmpQ; rw [if_neg (not_lt_of_gt h), if_neg (ne_of_gt h)]
      rw [h1, h2]
      exact iff_of_true rfl rfl
    · have h1 : cmpQ b.win_rate a.win_rate = Ordering.eq := by
        unfold cmpQ; rw [if_neg (by rw [h]; exact lt_irrefl _), if_pos h]
      have h2 : cmpQ a.win_rate b.win_rate = Ordering.eq := by
        unfold cmpQ; rw [if_neg (by rw [h]; exact lt_irrefl _), if_pos h.symm]
      rw [h1, h2]
      show cmpNat b.total_games a.total_games = Ordering.lt ↔
        cmpNat a.total_games b.total_games = Ordering.gt
      exact cmpNat_lt_gt _ _
    · have h1 : cmpQ b.win_rate a.win_rate = Ordering.gt := by
        unfold cmpQ; rw [if_neg (not_lt_of_gt h), if_neg (ne_of_gt h)]
      have h2 : cmpQ a.win_rate b.win_rate = Ordering.lt := by
        unfold cmpQ; rw [if_pos h]
      rw [h1, h2]
      exact iff_of_false (by simp [Ordering.then]) (by simp [Ordering.then])

/-! ## Row-key ordering lemmas -/

theorem digitsBE_length (w : Nat) : ∀ n, (digitsBE w n).length = w := by
  induction w with
  | zero => intro n; simp [digitsBE]
  | succ k ih => intro n; simp [digitsBE, ih]

theorem digitsBE_lt (w : Nat) : ∀ n m, n < 10 ^ w → m < 10 ^ w → n < m →
    List.Lex (fun a b : Nat => a < b) (digitsBE w n) (digitsBE w m) := by
  induction w with
  | zero =>
    intro n m hn hm hnm
    simp [pow_zero] at hn hm
    omega
  | succ k ih =>
    intro n m hn hm hnm
    have hdle : n / 10 ^ k ≤ m / 10 ^ k := Nat.div_le_div_right (le_of_lt hnm)
    rcases lt_or_eq_of_le hdle with hd | hd
    · exact List.Lex.rel hd
    · rw [show digitsBE (k + 1) n = n / 10 ^ k :: digitsBE k (n % 10 ^ k) from rfl]
      rw [show digitsBE (k + 1) m = m / 10 ^ k :: digitsBE k (m % 10 ^ k) from rfl]
      rw [hd]
      apply List.Lex.cons
      apply ih
      · exact Nat.mod_lt _ (Nat.pos_pow_of_pos k (by omega))
      · exact Nat.mod_lt _ (Nat.pos_pow_of_pos k (by omega))
      · have h1 := Nat.div_add_mod n (10 ^ k)
        have h2 := Nat.div_add_mod m (10 ^ k)
        rw [hd] at h1
        omega

theorem lex_map_add48 {l1 l2 : List Nat}
    (h : List.Lex (fun a b : Nat => a < b) l1 l2) :
    List.Lex (fun a b : Nat => a < b)
      (l1.map (fun d => d + 48)) (l2.map (fun d => d + 48)) := by
  induction h with
  | nil => exact List.Lex.nil
  | rel hab => exact List.Lex.rel (Nat.add_lt_add_right hab 48)
  | cons _ ih => exact List.Lex.cons ih

theorem lex_append_of_length_eq {l1 l2 : List Nat}
    (h : List.Lex (fun a b : Nat => a < b) l1 l2) :
    ∀ (u v : List Nat), l1.length = l2.length →
      List.Lex (fun a b : Nat => a < b) (l1 ++ u) (l2 ++ v) := by
  induction h with
  | nil =>
    intro u v hlen
    simp at hlen
  | rel hab => intro u v _; exact List.Lex.rel hab
  | cons _ ih =>
    intro u v hlen
    simp at hlen
    exact List.Lex.cons (ih u v hlen)

/-- C5: for two played-at instants t1 < t2 (both at most the ceiling
constant), every key generated for the later instant t2 is
lexicographically smaller than every key generated for t1 — ascending
key order is descending chronological order; and two keys for the same
instant share the whole 21-character prefix and differ only in the
unique suffix. -/
theorem claim_c5_row_keys :
    (∀ (t1 t2 : Nat) (s1 s2 : List Nat), t1 < t2 → t2 ≤ MAX_TIMESTAMP_MS →
      KeyLt (generate_match_row_key t2 s2) (generate_match_row_key t1 s1)) ∧
    (∀ (t : Nat) (s1 s2 : List Nat), ∃ p,
      generate_match_row_key t s1 = p ++ s1 ∧
      generate_match_row_key t s2 = p ++ s2) := by
  constructor
  · intro t1 t2 s1 s2 h12 h2max
    unfold KeyLt generate_match_row_key
    have hrev : MAX_TIMESTAMP_MS - t2 < MAX_TIMESTAMP_MS - t1 := by
      unfold MAX_TIMESTAMP_MS at h2max ⊢
      omega
    have hbound : MAX_TIMESTAMP_MS - t2 < 10 ^ 20 ∧
        MAX_TIMESTAMP_MS - t1 < 10 ^ 20 := by
      have hmax : MAX_TIMESTAMP_MS < 10 ^ 20 := by
        unfold MAX_TIMESTAMP_MS
        norm_num
      omega
    have hlex := digitsBE_lt 20 _ _ hbound.1 hbound.2 hrev
    have hmap := lex_map_add48 hlex
    apply lex_append_of_length_eq hmap
    simp [digitsBE_length]
  · intro t s1 s2
    refine ⟨(digitsBE 20 (MAX_TIMESTAMP_MS - t)).map (fun d => d + 48) ++ [95],
      ?_, ?_⟩ <;> simp [generate_match_row_key]

/-- C5 witness: the ordering part applied at the concrete instants 3
and 5 with concrete one-byte suffixes. -/
theorem claim_c5_row_keys_witness :
    KeyLt (generate_match_row_key 5 [97]) (generate_match_row_key 3 [98]) :=
  claim_c5_row_keys.1 3 5 [98] [97] (by norm_num) (by norm_num [MAX_TIMESTAMP_MS])

/-! ## Rivalry map invariants -/

theorem h2hRecordPair_nodup {h : List ((String × String) × (Nat × Nat))}
    (hnd : (keys h).Nodup) (w l : String) :
    (keys (h2hRecordPair h w l)).Nodup := by
  unfold h2hRecordPair
  split <;> exact nodup_keys_updAssoc _ _ _ hnd

theorem h2hMatch_nodup {h : List ((String × String) × (Nat × Nat))}
    (hnd : (keys h).Nodup) (m : MatchRecord) :
    (keys (h2hMatch h m)).Nodup := by
  unfold h2hMatch
  exact h2hRecordPair_nodup (h2hRecordPair_nodup (h2hRecordPair_nodup
    (h2hRecordPair_nodup hnd _ _) _ _) _ _) _ _

theorem h2h_nodup (ms : List MatchRecord) : (keys (h2h ms)).Nodup := by
  unfold h2h
  have : ∀ (l : List MatchRecord) (h : List ((String × String) × (Nat × Nat))),
      (keys h).Nodup → (keys (l.foldl h2hMatch h)).Nodup := by
    intro l
    induction l with
    | nil => intro h hnd; simpa using hnd
    | cons m rest ih =>
      intro h hnd
      exact ih _ (h2hMatch_nodup hnd m)
  exact this ms [] (by simp [keys])

theorem updAssoc_key_origin {κ α : Type} [DecidableEq κ] {d : α} {f : α → α}
    {k0 : κ} {h : List (κ × α)} {Q : κ → Prop}
    (hh : ∀ k v, lookupA k h = some v → Q k) (h0 : Q k0) :
    ∀ k v, lookupA k (updAssoc d f k0 h) = some v → Q k := by
  intro k v hk
  rw [lookupA_updAssoc] at hk
  by_cases hkk : k0 = k
  · subst hkk; exact h0
  · rw [if_neg hkk] at hk
    exact hh k v hk

theorem h2hRecordPair_key_origin {h : List ((String × String) × (Nat × Nat))}
    {w l : String} (hwl : w ≠ l)
    (hh : ∀ k v, lookupA k h = some v → k.1 < k.2) :
    ∀ k v, lookupA k (h2hRecordPair h w l) = some v → k.1 < k.2 := by
  unfold h2hRecordPair
  by_cases hlt : w < l
  · rw [if_pos hlt]
    exact updAssoc_key_origin hh hlt
  · rw [if_neg hlt]
    refine updAssoc_key_origin hh ?_
    rcases lt_or_gt_of_ne hwl with hc | hc
    · exact absurd hc hlt
    · exact hc

theorem h2h_key_canonical {ms : List MatchRecord}
    (hd : ∀ m ∈ ms, distinct4 m) :
    ∀ k v, lookupA k (h2h ms) = some v → k.1 < k.2 := by
  unfold h2h
  have main : ∀ (l : List MatchRecord),
      (∀ m ∈ l, distinct4 m) →
      ∀ (h : List ((String × String) × (Nat × Nat))),
      (∀ k v, lookupA k h = some v → k.1 < k.2) →
      ∀ k v, lookupA k (l.foldl h2hMatch h) = some v → k.1 < k.2 := by
    intro l
    induction l with
    | nil => intro _ h hh; simpa using hh
    | cons m rest ih =>
      intro hdm h hh
      have hm := hdm m (List.mem_cons_self m rest)
      obtain ⟨h12, h34, h13, h14, h23, h24⟩ := hm
      refine ih (fun x hx => hdm x (List.mem_cons_of_mem m hx)) _ ?_
      unfold h2hMatch
      exact h2hRecordPair_key_origin h24 (h2hRecordPair_key_origin h23
        (h2hRecordPair_key_origin h14 (h2hRecordPair_key_origin h13 hh)))
  exact main ms hd [] (by intro k v hk; simp [lookupA] at hk)

theorem mem_get_rivalries (ms : List MatchRecord)
    (e : (String × String) × (Nat × Nat)) :
    e ∈ get_rivalries ms ↔ e ∈ h2h ms ∧ 2 ≤ e.2.1 + e.2.2 := by
  unfold get_rivalries
  rw [List.mem_insertionSort, List.mem_filter]
  simp

/-- Sum of the two components of a list-sum of pairs. -/
theorem pair_sum_components : ∀ (l : List (Nat × Nat)),
    l.sum.1 + l.sum.2 = (l.map (fun p => p.1 + p.2)).sum := by
  intro l
  induction l with
  | nil => simp
  | cons p rest ih =>
    simp only [List.sum_cons, List.map_cons, Prod.fst_add, Prod.snd_add]
    omega

theorem dirContrib_eq {a b : String} (hab : a < b) (w l : String) :
    dirContrib a b w l =
      if w = a ∧ l = b then (1, 0)
      else if w = b ∧ l = a then (0, 1) else (0, 0) := by
  unfold dirContrib
  by_cases hwl : w < l
  · rw [if_pos hwl]
    by_cases hpq : a = w ∧ b = l
    · rw [if_pos (by rw [Prod.mk.injEq]; exact hpq)]
      rw [if_pos ⟨hpq.1.symm, hpq.2.symm⟩]
    · rw [if_neg (by rw [Prod.mk.injEq]; exact hpq)]
      rw [if_neg (fun hc => hpq ⟨hc.1.symm, hc.2.symm⟩)]
      rw [if_neg (by
        rintro ⟨hw, hl⟩
        rw [hw, hl] at hwl
        exact absurd hab (not_lt_of_gt hwl))]
  · rw [if_neg hwl]
    by_cases hpq : a = l ∧ b = w
    · rw [if_pos (by rw [Prod.mk.injEq]; exact hpq)]
      rw [if_neg (by
        rintro ⟨hw, hl⟩
        have hba : b = a := hpq.2.trans hw
        rw [hba] at hab
        exact lt_irrefl a hab)]
      rw [if_pos ⟨hpq.2.symm, hpq.1.symm⟩]
    · rw [if_neg (by rw [Prod.mk.injEq]; exact hpq)]
      rw [if_neg (by
        rintro ⟨hw, hl⟩
        rw [← hw, ← hl] at hab
        exact hwl hab)]
      rw [if_neg (fun hc => hpq ⟨hc.2.symm, hc.1.symm⟩)]

theorem matchContrib_distinct {a b : String} (hab : a < b) {m : MatchRecord}
    (hm : distinct4 m) :
    (matchContrib (a, b) m).1 + (matchContrib (a, b) m).2 =
      if pairMeets a b m then 1 else 0 := by
  obtain ⟨h12, h34, h13, h14, h23, h24⟩ := hm
  simp only [matchContrib, pairMeets, onWinners, onLosers,
    dirContrib_eq hab, Prod.fst_add, Prod.snd_add]
  by_cases e1 : m.winner1_id = a <;> by_cases e2 : m.winner2_id = a <;>
    by_cases e3 : m.loser1_id = a <;> by_cases e4 : m.loser2_id = a <;>
    by_cases f1 : m.winner1_id = b <;> by_cases f2 : m.winner2_id = b <;>
    by_cases f3 : m.loser1_id = b <;> by_cases f4 : m.loser2_id = b <;>
    simp_all <;> omega

/-- Concrete strict comparisons on `String`, via the character lists
(the library's decision procedure for `String.lt` does not reduce in
the kernel, the character-list one does). -/
theorem str_lt {s t : String} (h : s.toList < t.toList) : s < t :=
  String.lt_iff_toList_lt.mpr h

/-- Sum of 0/1 indicator values equals `countP`. -/
theorem sum_ite_count {α : Type} (p : α → Prop) [DecidablePred p] :
    ∀ (l : List α), (l.map (fun x => if p x then (1 : Nat) else 0)).sum =
      l.countP (fun x => decide (p x)) := by
  intro l
  induction l with
  | nil => simp
  | cons x rest ih =>
    simp only [List.map_cons, List.sum_cons, List.countP_cons, ih]
    by_cases hx : p x <;> simp [hx] <;> omega

/-- C4 (amended with the pairwise-distinct precondition): when every
match has four pairwise-distinct participants, each entry of the h2h
map is stored under a canonical key (smaller identifier first) and its
two directional counters sum to the number of matches in which one
member of the pair was on the winning team and the other on the losing
team.  Without the precondition the totals can overcount: see the
counterexample. -/
theorem claim_c4_rivalry_totals :
    ∀ (ms : List MatchRecord) (a b : String) (v : Nat × Nat),
    (∀ m ∈ ms, distinct4 m) →
    lookupA (a, b) (h2h ms) = some v →
    a < b ∧
      v.1 + v.2 = ms.countP (fun m => decide (pairMeets a b m)) := by
  intro ms a b v hd hlk
  have hab : a < b := h2h_key_canonical hd (a, b) v hlk
  refine ⟨hab, ?_⟩
  have hv : lookupVal (a, b) (h2h ms) = v := by
    unfold lookupVal
    rw [hlk]
    rfl
  have hsum := h2h_lookupVal ms (a, b)
  rw [hv] at hsum
  have hcomp : v.1 + v.2 =
      ((ms.map (matchContrib (a, b))).map (fun p => p.1 + p.2)).sum := by
    rw [hsum]
    exact pair_sum_components _
  rw [hcomp, List.map_map]
  rw [show ms.map ((fun p : Nat × Nat => p.1 + p.2) ∘ matchContrib (a, b)) =
      ms.map (fun m => if pairMeets a b m then (1 : Nat) else 0) from
    List.map_congr_left (fun m hm =>
      matchContrib_distinct hab (hd m hm))]
  exact sum_ite_count _ ms

/-- C4 counterexample: with a duplicated winner slot (the same id in
both winner positions) the pair ("p","q") accumulates 2 directional
results from a single match, while only 1 match has one member winning
and the other losing — the totals are not match counts as stated. -/
theorem claim_c4_counterexample :
    lookupA ("p", "q") (h2h [mkMatch "p" "p" "q" "r"]) = some (2, 0) ∧
    [mkMatch "p" "p" "q" "r"].countP
      (fun m => decide (pairMeets "p" "q" m)) = 1 := by
  constructor
  · simp [h2h, h2hMatch, h2hRecordPair, updAssoc, lookupA, mkMatch,
      show ("p" : String) < "q" from str_lt (by decide),
      show ("p" : String) < "r" from str_lt (by decide)]
  · decide

/-- C4 witness: the amended claim applied to the concrete list `msW`
(all participants distinct), pair ("w1","w3"). -/
theorem claim_c4_witness :
    ("w1" : String) < "w3" ∧
      ((2 : Nat), (0 : Nat)).1 + ((2 : Nat), (0 : Nat)).2 =
        msW.countP (fun m => decide (pairMeets "w1" "w3" m)) :=
  claim_c4_rivalry_totals msW "w1" "w3" (2, 0) (by decide) (by
    simp [h2h, msW, h2hMatch, h2hRecordPair, updAssoc, lookupA, mkMatch,
      show ("w1" : String) < "w3" from str_lt (by decide),
      show ("w1" : String) < "w4" from str_lt (by decide),
      show ("w2" : String) < "w3" from str_lt (by decide),
      show ("w2" : String) < "w4" from str_lt (by decide)])

/-- C6: a canonical pair whose two directional counters sum to exactly
1 never appears in the rivalry output, and one whose counters sum to 2
or more always appears. -/
theorem claim_c6_min_meetings :
    ∀ (ms : List MatchRecord) (a b : String) (v : Nat × Nat),
    lookupA (a, b) (h2h ms) = some v →
    (v.1 + v.2 = 1 → ∀ w, ((a, b), w) ∉ get_rivalries ms) ∧
    (2 ≤ v.1 + v.2 → ((a, b), v) ∈ get_rivalries ms) := by
  intro ms a b v hlk
  constructor
  · intro hone w hmem
    rw [mem_get_rivalries] at hmem
    have hlk2 : lookupA (a, b) (h2h ms) = some w :=
      lookupA_eq_of_mem_nodup (h2h_nodup ms) hmem.1
    rw [hlk] at hlk2
    injection hlk2 with hvw
    rw [← hvw] at hmem
    have h2 : 2 ≤ v.1 + v.2 := by simpa using hmem.2
    omega
  · intro htwo
    rw [mem_get_rivalries]
    exact ⟨mem_of_lookupA hlk, htwo⟩

/-- C6 witness: in `msW` the pair ("w1","w3") has 2 combined meetings
and indeed appears in the rivalry output. -/
theorem claim_c6_witness :
    (("w1", "w3"), ((2 : Nat), (0 : Nat))) ∈ get_rivalries msW :=
  (claim_c6_min_meetings msW "w1" "w3" (2, 0) (by
    simp [h2h, msW, h2hMatch, h2hRecordPair, updAssoc, lookupA, mkMatch,
      show ("w1" : String) < "w3" from str_lt (by decide),
      show ("w1" : String) < "w4" from str_lt (by decide),
      show ("w2" : String) < "w3" from str_lt (by decide),
      show ("w2" : String) < "w4" from str_lt (by decide)])).2 (by decide)

/-! ## max_by_key lemmas -/

theorem maxStep_go {α : Type} (key : α → Nat) :
    ∀ (t : List α) (y : α), ∃ z, t.foldl (maxStep key) (some y) = some z ∧
      (z = y ∨ z ∈ t) ∧ key y ≤ key z ∧ ∀ x ∈ t, key x ≤ key z := by
  intro t
  induction t with
  | nil => intro y; exact ⟨y, rfl, Or.inl rfl, le_refl _, by simp⟩
  | cons x rest ih =>
    intro y
    by_cases h : key y ≤ key x
    · obtain ⟨z, hz, hmem, hky, hmax⟩ := ih x
      refine ⟨z, ?_, ?_, le_trans h hky, ?_⟩
      · simpa [maxStep, h] using hz
      · rcases hmem with rfl | hm
        · exact Or.inr (List.mem_cons_self _ _)
        · exact Or.inr (List.mem_cons_of_mem _ hm)
      · intro w hw
        rcases List.mem_cons.1 hw with rfl | hm
        · exact hky
        · exact hmax w hm
    · obtain ⟨z, hz, hmem, hky, hmax⟩ := ih y
      refine ⟨z, ?_, ?_, hky, ?_⟩
      · simpa [maxStep, h] using hz
      · rcases hmem with rfl | hm
        · exact Or.inl rfl
        · exact Or.inr (List.mem_cons_of_mem _ hm)
      · intro w hw
        rcases List.mem_cons.1 hw with rfl | hm
        · exact le_trans (le_of_lt (lt_of_not_le h)) hky
        · exact hmax w hm

theorem max_by_key_none {α : Type} (key : α → Nat) (l : List α) :
    max_by_key key l = none ↔ l = [] := by
  cases l with
  | nil => simp [max_by_key]
  | cons x t =>
    unfold max_by_key
    rw [List.foldl_cons]
    rw [show maxStep key none x = some x from rfl]
    obtain ⟨z, hz, _, _, _⟩ := maxStep_go key t x
    rw [hz]
    simp

theorem max_by_key_some {α : Type} (key : α → Nat) (l : List α) (z : α)
    (hz : max_by_key key l = some z) :
    z ∈ l ∧ ∀ x ∈ l, key x ≤ key z := by
  cases l with
  | nil => simp [max_by_key] at hz
  | cons x t =>
    unfold max_by_key at hz
    rw [List.foldl_cons] at hz
    rw [show maxStep key none x = some x from rfl] at hz
    obtain ⟨w, hw, hmem, hkx, hmax⟩ := maxStep_go key t x
    rw [hw] at hz
    injection hz with hz
    subst hz
    constructor
    · rcases hmem with rfl | hm
      · exact List.mem_cons_self _ _
      · exact List.mem_cons_of_mem _ hm
    · intro w hwm
      rcases List.mem_cons.1 hwm with rfl | hm
      · exact hkx
      · exact hmax w hm

/-- C7 (amended): the best-partner result is absent exactly when no
teammate has at least 2 games together; otherwise it is an eligible
teammate holding the maximal wins-together value — but the tie among
equally-winning teammates is NOT broken by fewer losses or smaller
identifier: the code keeps the last maximal entry in the map's
iteration order (nondeterministic for a HashMap; first-insertion order
in this model).  See the counterexample. -/
theorem claim_c7_best_partner :
    ∀ (pid : String) (ms : List MatchRecord),
    (best_partner pid ms = none ↔
      (playerStatsAgg pid ms).partner_record.filter
        (fun e => decide (2 ≤ e.2.1 + e.2.2)) = []) ∧
    ∀ e, best_partner pid ms = some e →
      e ∈ (playerStatsAgg pid ms).partner_record ∧ 2 ≤ e.2.1 + e.2.2 ∧
      ∀ x ∈ (playerStatsAgg pid ms).partner_record,
        2 ≤ x.2.1 + x.2.2 → x.2.1 ≤ e.2.1 := by
  intro pid ms
  constructor
  · unfold best_partner
    exact max_by_key_none _ _
  · intro e he
    unfold best_partner at he
    obtain ⟨hmem, hmax⟩ := max_by_key_some _ _ _ he
    rw [List.mem_filter] at hmem
    refine ⟨hmem.1, by simpa using hmem.2, ?_⟩
    intro x hx hx2
    exact hmax x (List.mem_filter.2 ⟨hx, by simpa using hx2⟩)

/-- C7 counterexample: in `msT` the focal player "p" has two eligible
partners, "q" with record (2, 0) and "r" with record (2, 1).  They tie
on wins; the claimed tie-break (fewer losses, then smaller identifier)
selects "q", but the code returns "r" (the later maximal entry). -/
theorem claim_c7_counterexample :
    best_partner "p" msT = some ("r", (2, 1)) ∧
    lookupVal "q" (playerStatsAgg "p" msT).partner_record = (2, 0) ∧
    (("r", ((2 : Nat), (1 : Nat))) : String × (Nat × Nat)) ≠ ("q", (2, 0)) := by
  refine ⟨by decide, by decide, by decide⟩

/-- C7 witness: the amended claim applied at the concrete input `msT`,
where the code selects ("r", (2, 1)). -/
theorem claim_c7_witness :
    ("r", ((2 : Nat), (1 : Nat))) ∈ (playerStatsAgg "p" msT).partner_record ∧
    2 ≤ (("r", ((2 : Nat), (1 : Nat))) : String × (Nat × Nat)).2.1 +
        (("r", ((2 : Nat), (1 : Nat))) : String × (Nat × Nat)).2.2 ∧
    ∀ x ∈ (playerStatsAgg "p" msT).partner_record,
      2 ≤ x.2.1 + x.2.2 →
        x.2.1 ≤ (("r", ((2 : Nat), (1 : Nat))) : String × (Nat × Nat)).2.1 :=
  (claim_c7_best_partner "p" msT).2 ("r", (2, 1)) (by decide)

/-! ## Match-listing lemmas -/

theorem processPage_len (parse : String → Option Nat) (max : Nat) :
    ∀ (es : List MatchEntity) (acc : List MatchRecord),
      acc.length ≤ max → (processPage parse max acc es).length ≤ max := by
  intro es
  induction es with
  | nil => intro acc h; simpa [processPage] using h
  | cons e rest ih =>
    intro acc h
    unfold processPage
    by_cases hfull : max ≤ acc.length
    · rw [if_pos hfull]; exact h
    · rw [if_neg hfull]
      cases htf : tryFromEntity parse e with
      | some r =>
        exact ih (acc ++ [r]) (by simp; omega)
      | none => exact ih acc h

theorem processPage_prov (parse : String → Option Nat) (max : Nat) :
    ∀ (es : List MatchEntity) (acc : List MatchRecord) (r : MatchRecord),
      r ∈ processPage parse max acc es →
      r ∈ acc ∨ ∃ e ∈ es, tryFromEntity parse e = some r := by
  intro es
  induction es with
  | nil =>
    intro acc r h
    exact Or.inl (by simpa [processPage] using h)
  | cons e rest ih =>
    intro acc r h
    unfold processPage at h
    by_cases hfull : max ≤ acc.length
    · rw [if_pos hfull] at h
      exact Or.inl h
    · rw [if_neg hfull] at h
      cases htf : tryFromEntity parse e with
      | some q =>
        rw [htf] at h
        rcases ih (acc ++ [q]) r h with hacc | ⟨e2, he2, htf2⟩
        · rcases List.mem_append.1 hacc with hacc | hacc
          · exact Or.inl hacc
          · simp at hacc
            subst hacc
            exact Or.inr ⟨e, List.mem_cons_self _ _, htf⟩
        · exact Or.inr ⟨e2, List.mem_cons_of_mem _ he2, htf2⟩
      | none =>
        rw [htf] at h
        rcases ih acc r h with hacc | ⟨e2, he2, htf2⟩
        · exact Or.inl hacc
        · exact Or.inr ⟨e2, List.mem_cons_of_mem _ he2, htf2⟩

theorem listMatchesGo_ok (parse : String → Option Nat) (max : Nat) :
    ∀ (pages : List (Except String (List MatchEntity)))
      (acc : List MatchRecord),
      (∀ p ∈ pages, p.isOk = true) → acc.length ≤ max →
      ∃ out, listMatchesGo parse max acc pages = Except.ok out ∧
        out.length ≤ max ∧
        ∀ r ∈ out, r ∈ acc ∨ ∃ es, Except.ok es ∈ pages ∧
          ∃ e ∈ es, tryFromEntity parse e = some r := by
  intro pages
  induction pages with
  | nil =>
    intro acc _ hlen
    exact ⟨acc, rfl, hlen, fun r hr => Or.inl hr⟩
  | cons page rest ih =>
    intro acc hok hlen
    cases page with
    | error e =>
      have := hok (Except.error e) (List.mem_cons_self _ _)
      simp [Except.isOk, Except.toBool] at this
    | ok entities =>
      have hlen2 : (processPage parse max acc entities).length ≤ max :=
        processPage_len parse max entities acc hlen
      rw [show listMatchesGo parse max acc (Except.ok entities :: rest) =
          (if max ≤ (processPage parse max acc entities).length then
            Except.ok (processPage parse max acc entities)
          else listMatchesGo parse max (processPage parse max acc entities) rest)
        from rfl]
      by_cases hfull : max ≤ (processPage parse max acc entities).length
      · rw [if_pos hfull]
        refine ⟨_, rfl, hlen2, ?_⟩
        intro r hr
        rcases processPage_prov parse max entities acc r hr with hacc | ⟨e, he, htf⟩
        · exact Or.inl hacc
        · exact Or.inr ⟨entities, List.mem_cons_self _ _, e, he, htf⟩
      · rw [if_neg hfull]
        obtain ⟨out, hout, houtlen, hprov⟩ :=
          ih (processPage parse max acc entities)
            (fun p hp => hok p (List.mem_cons_of_mem _ hp)) hlen2
        refine ⟨out, hout, houtlen, ?_⟩
        intro r hr
        rcases hprov r hr with hacc | ⟨es, hes, e, he, htf⟩
        · rcases processPage_prov parse max entities acc r hacc with h2 | ⟨e, he, htf⟩
          · exact Or.inl h2
          · exact Or.inr ⟨entities, List.mem_cons_self _ _, e, he, htf⟩
        · exact Or.inr ⟨es, List.mem_cons_of_mem _ hes, e, he, htf⟩

/-- C8: when every page of the stream succeeds, the listing succeeds no
matter how many stored records are malformed; every returned record
comes from an entity whose timestamp parsed successfully (malformed
records are skipped, never aborting the listing), and the result
respects the limit when one is supplied. -/
theorem claim_c8_malformed_skipped :
    ∀ (parse : String → Option Nat)
      (pages : List (Except String (List MatchEntity))) (limit : Option Nat),
    (∀ p ∈ pages, p.isOk = true) →
    ∃ out, list_matches parse pages limit = Except.ok out ∧
      (∀ k, limit = some k → out.length ≤ k) ∧
      ∀ r ∈ out, ∃ es, Except.ok es ∈ pages ∧
        ∃ e ∈ es, tryFromEntity parse e = some r := by
  intro parse pages limit hok
  obtain ⟨out, hout, hlen, hprov⟩ :=
    listMatchesGo_ok parse (limit.getD USIZE_MAX) pages [] hok (by simp)
  refine ⟨out, hout, ?_, ?_⟩
  · intro k hk
    rw [hk] at hlen
    simpa using hlen
  · intro r hr
    rcases hprov r hr with hacc | hp
    · simp at hacc
    · exact hp

/-- C8 witness: one successful page with a well-formed and a malformed
entity; the listing succeeds, respects the limit 5, and every returned
record has a successfully parsed source entity. -/
theorem claim_c8_witness :
    ∃ out, list_matches parseW pagesW (some 5) = Except.ok out ∧
      (∀ k, some 5 = some k → out.length ≤ k) ∧
      ∀ r ∈ out, ∃ es, Except.ok es ∈ pagesW ∧
        ∃ e ∈ es, tryFromEntity parseW e = some r :=
  claim_c8_malformed_skipped parseW pagesW (some 5) (by decide)

/-! ## Slot-swap invariance lemmas -/

theorem winContrib_swapW (pid : String) (m : MatchRecord) :
    winContrib pid (swapWinners m) = winContrib pid m := by
  simp [winContrib, swapWinners, Nat.add_comm]

theorem winContrib_swapL (pid : String) (m : MatchRecord) :
    winContrib pid (swapLosers m) = winContrib pid m := rfl

theorem lossContrib_swapW (pid : String) (m : MatchRecord) :
    lossContrib pid (swapWinners m) = lossContrib pid m := rfl

theorem lossContrib_swapL (pid : String) (m : MatchRecord) :
    lossContrib pid (swapLosers m) = lossContrib pid m := by
  simp [lossContrib, swapLosers, Nat.add_comm]

theorem ite_append_comm {α : Type} (P Q : Prop) [Decidable P] [Decidable Q]
    (x : α) :
    (if P then [x] else []) ++ (if Q then [x] else []) =
      (if Q then [x] else []) ++ (if P then [x] else []) := by
  split_ifs <;> rfl

theorem resContrib_swapW (pid : String) (m : MatchRecord) :
    resContrib pid (swapWinners m) = resContrib pid m := by
  simp only [resContrib, swapWinners]
  rw [ite_append_comm]

theorem resContrib_swapL (pid : String) (m : MatchRecord) :
    resContrib pid (swapLosers m) = resContrib pid m := by
  simp only [resContrib, swapLosers]
  rw [ite_append_comm (pid = m.loser2_id) (pid = m.loser1_id)]

theorem matchContrib_swapW (k : String × String) (m : MatchRecord) :
    matchContrib k (swapWinners m) = matchContrib k m := by
  simp only [matchContrib, swapWinners]
  abel

theorem matchContrib_swapL (k : String × String) (m : MatchRecord) :
    matchContrib k (swapLosers m) = matchContrib k m := by
  simp only [matchContrib, swapLosers]
  abel

theorem isWinnerB_swapW (pid : String) (m : MatchRecord) :
    isWinnerB pid (swapWinners m) = isWinnerB pid m := by
  simp [isWinnerB, swapWinners, Bool.or_comm]

theorem isLoserB_swapL (pid : String) (m : MatchRecord) :
    isLoserB pid (swapLosers m) = isLoserB pid m := by
  simp [isLoserB, swapLosers, Bool.or_comm]

theorem pWinContrib_swapW (pid : String) (m : MatchRecord) :
    pWinContrib pid (swapWinners m) = pWinContrib pid m := by
  simp [pWinContrib, isWinnerB_swapW]

theorem pWinContrib_swapL (pid : String) (m : MatchRecord) :
    pWinContrib pid (swapLosers m) = pWinContrib pid m := rfl

theorem pLossContrib_swapW (pid : String) (m : MatchRecord) :
    pLossContrib pid (swapWinners m) = pLossContrib pid m := by
  simp only [pLossContrib, isWinnerB_swapW]
  rw [show isLoserB pid (swapWinners m) = isLoserB pid m from rfl]

theorem pLossContrib_swapL (pid : String) (m : MatchRecord) :
    pLossContrib pid (swapLosers m) = pLossContrib pid m := by
  simp only [pLossContrib, isLoserB_swapL]
  rw [show isWinnerB pid (swapLosers m) = isWinnerB pid m from rfl]

theorem pResContrib_swapW (pid : String) (m : MatchRecord) :
    pResContrib pid (swapWinners m) = pResContrib pid m := by
  simp only [pResContrib, isWinnerB_swapW]
  rw [show isLoserB pid (swapWinners m) = isLoserB pid m from rfl]

theorem pResContrib_swapL (pid : String) (m : MatchRecord) :
    pResContrib pid (swapLosers m) = pResContrib pid m := by
  simp only [pResContrib, isLoserB_swapL]
  rw [show isWinnerB pid (swapLosers m) = isWinnerB pid m from rfl]

theorem partnerW_swap {pid : String} {m : MatchRecord}
    (h : isWinnerB pid m = true) :
    partnerW pid (swapWinners m) = partnerW pid m := by
  unfold isWinnerB at h
  unfold partnerW swapWinners
  cases e1 : m.winner1_id == pid <;> cases e2 : m.winner2_id == pid <;>
    simp_all

theorem partnerL_swap {pid : String} {m : MatchRecord}
    (h : isLoserB pid m = true) :
    partnerL pid (swapLosers m) = partnerL pid m := by
  unfold isLoserB at h
  unfold partnerL swapLosers
  cases e1 : m.loser1_id == pid <;> cases e2 : m.loser2_id == pid <;>
    simp_all

theorem pPartnerContrib_swapW (pid tid : String) (m : MatchRecord) :
    pPartnerContrib pid tid (swapWinners m) = pPartnerContrib pid tid m := by
  unfold pPartnerContrib
  rw [isWinnerB_swapW]
  rw [show isLoserB pid (swapWinners m) = isLoserB pid m from rfl]
  cases hw : isWinnerB pid m
  · rw [show partnerL pid (swapWinners m) = partnerL pid m from rfl]
    simp
  · rw [partnerW_swap hw]
    simp

theorem pPartnerContrib_swapL (pid tid : String) (m : MatchRecord) :
    pPartnerContrib pid tid (swapLosers m) = pPartnerContrib pid tid m := by
  unfold pPartnerContrib
  rw [isLoserB_swapL]
  rw [show isWinnerB pid (swapLosers m) = isWinnerB pid m from rfl]
  cases hw : isWinnerB pid m
  · cases hl : isLoserB pid m
    · simp
    · simp only [Bool.false_eq_true, if_false, if_pos rfl]
      rw [partnerL_swap hl]
  · rw [show partnerW pid (swapLosers m) = partnerW pid m from rfl]
    simp

theorem pOppContrib_swapW (pid oid : String) (m : MatchRecord) :
    pOppContrib pid oid (swapWinners m) = pOppContrib pid oid m := by
  unfold pOppContrib
  rw [isWinnerB_swapW]
  rw [show isLoserB pid (swapWinners m) = isLoserB pid m from rfl]
  cases hw : isWinnerB pid m
  · cases hl : isLoserB pid m <;> simp [swapWinners, Nat.add_comm]
  · simp [swapWinners]

theorem pOppContrib_swapL (pid oid : String) (m : MatchRecord) :
    pOppContrib pid oid (swapLosers m) = pOppContrib pid oid m := by
  unfold pOppContrib
  rw [isLoserB_swapL]
  rw [show isWinnerB pid (swapLosers m) = isWinnerB pid m from rfl]
  cases hw : isWinnerB pid m
  · cases hl : isLoserB pid m <;> simp [swapLosers]
  · simp [swapLosers, Nat.add_comm]

theorem sum_mid_congr {β : Type} [AddCommMonoid β] (pre post : List MatchRecord)
    {m m2 : MatchRecord} (f : MatchRecord → β) (h : f m2 = f m) :
    ((pre ++ m2 :: post).map f).sum = ((pre ++ m :: post).map f).sum := by
  simp [h]

theorem flatten_mid_congr (pre post : List MatchRecord)
    {m m2 : MatchRecord} (f : MatchRecord → List Bool) (h : f m2 = f m) :
    ((pre ++ m2 :: post).map f).flatten = ((pre ++ m :: post).map f).flatten := by
  simp [h]

/-- C9: swapping the two winner slots or the two loser slots of any one
match leaves the leaderboard tallies and streaks, the rivalry counters,
and (under pairwise-distinct participants) the focal player's partner
and opponent records unchanged. -/
theorem claim_c9_slot_swap :
    ∀ (pre post : List MatchRecord) (m m2 : MatchRecord)
      (pid k1 k2 focal tid oid : String),
    (m2 = swapWinners m ∨ m2 = swapLosers m) →
    ((tallyMatches (pre ++ m2 :: post)).wins pid =
        (tallyMatches (pre ++ m :: post)).wins pid ∧
      (tallyMatches (pre ++ m2 :: post)).losses pid =
        (tallyMatches (pre ++ m :: post)).losses pid ∧
      (tallyMatches (pre ++ m2 :: post)).last_results pid =
        (tallyMatches (pre ++ m :: post)).last_results pid ∧
      calculate_streak ((tallyMatches (pre ++ m2 :: post)).last_results pid) =
        calculate_streak ((tallyMatches (pre ++ m :: post)).last_results pid)) ∧
    lookupVal (k1, k2) (h2h (pre ++ m2 :: post)) =
      lookupVal (k1, k2) (h2h (pre ++ m :: post)) ∧
    (distinct4 m →
      lookupVal tid (playerStatsAgg focal (pre ++ m2 :: post)).partner_record =
        lookupVal tid (playerStatsAgg focal (pre ++ m :: post)).partner_record ∧
      lookupVal oid (playerStatsAgg focal (pre ++ m2 :: post)).opponent_record =
        lookupVal oid (playerStatsAgg focal (pre ++ m :: post)).opponent_record ∧
      (playerStatsAgg focal (pre ++ m2 :: post)).wins =
        (playerStatsAgg focal (pre ++ m :: post)).wins ∧
      (playerStatsAgg focal (pre ++ m2 :: post)).losses =
        (playerStatsAgg focal (pre ++ m :: post)).losses ∧
      (playerStatsAgg focal (pre ++ m2 :: post)).results =
        (playerStatsAgg focal (pre ++ m :: post)).results) := by
  intro pre post m m2 pid k1 k2 focal tid oid hsw
  have hwc : winContrib pid m2 = winContrib pid m := by
    rcases hsw with rfl | rfl
    · exact winContrib_swapW pid m
    · exact winContrib_swapL pid m
  have hlc : lossContrib pid m2 = lossContrib pid m := by
    rcases hsw with rfl | rfl
    · exact lossContrib_swapW pid m
    · exact lossContrib_swapL pid m
  have hrc : resContrib pid m2 = resContrib pid m := by
    rcases hsw with rfl | rfl
    · exact resContrib_swapW pid m
    · exact resContrib_swapL pid m
  have hmc : matchContrib (k1, k2) m2 = matchContrib (k1, k2) m := by
    rcases hsw with rfl | rfl
    · exact matchContrib_swapW _ m
    · exact matchContrib_swapL _ m
  have hpw : pWinContrib focal m2 = pWinContrib focal m := by
    rcases hsw with rfl | rfl
    · exact pWinContrib_swapW focal m
    · exact pWinContrib_swapL focal m
  have hpl : pLossContrib focal m2 = pLossContrib focal m := by
    rcases hsw with rfl | rfl
    · exact pLossContrib_swapW focal m
    · exact pLossContrib_swapL focal m
  have hpr : pResContrib focal m2 = pResContrib focal m := by
    rcases hsw with rfl | rfl
    · exact pResContrib_swapW focal m
    · exact pResContrib_swapL focal m
  have hpp : pPartnerContrib focal tid m2 = pPartnerContrib focal tid m := by
    rcases hsw with rfl | rfl
    · exact pPartnerContrib_swapW focal tid m
    · exact pPartnerContrib_swapL focal tid m
  have hpo : pOppContrib focal oid m2 = pOppContrib focal oid m := by
    rcases hsw with rfl | rfl
    · exact pOppContrib_swapW focal oid m
    · exact pOppContrib_swapL focal oid m
  have hres : (tallyMatches (pre ++ m2 :: post)).last_results pid =
      (tallyMatches (pre ++ m :: post)).last_results pid := by
    rw [tallyMatches_results, tallyMatches_results]
    exact flatten_mid_congr pre post _ hrc
  refine ⟨⟨?_, ?_, hres, congrArg calculate_streak hres⟩, ?_, ?_⟩
  · rw [tallyMatches_wins, tallyMatches_wins]
    exact sum_mid_congr pre post _ hwc
  · rw [tallyMatches_losses, tallyMatches_losses]
    exact sum_mid_congr pre post _ hlc
  · rw [h2h_lookupVal, h2h_lookupVal]
    exact sum_mid_congr pre post _ hmc
  · intro _
    refine ⟨?_, ?_, ?_, ?_, ?_⟩
    · rw [playerStatsAgg_partner, playerStatsAgg_partner]
      exact sum_mid_congr pre post _ hpp
    · rw [playerStatsAgg_opponent, playerStatsAgg_opponent]
      exact sum_mid_congr pre post _ hpo
    · rw [playerStatsAgg_wins, playerStatsAgg_wins]
      exact sum_mid_congr pre post _ hpw
    · rw [playerStatsAgg_losses, playerStatsAgg_losses]
      exact sum_mid_congr pre post _ hpl
    · rw [playerStatsAgg_results, playerStatsAgg_results]
      exact flatten_mid_congr pre post _ hpr

/-- C9 witness: the claim applied to a concrete one-match list with the
winner slots swapped. -/
theorem claim_c9_witness :
    (tallyMatches ([] ++ swapWinners (mkMatch "a" "b" "c" "d") :: [])).wins "a" =
        (tallyMatches ([] ++ mkMatch "a" "b" "c" "d" :: [])).wins "a" ∧
      (tallyMatches ([] ++ swapWinners (mkMatch "a" "b" "c" "d") :: [])).losses "a" =
        (tallyMatches ([] ++ mkMatch "a" "b" "c" "d" :: [])).losses "a" ∧
      (tallyMatches ([] ++ swapWinners (mkMatch "a" "b" "c" "d") :: [])).last_results "a" =
        (tallyMatches ([] ++ mkMatch "a" "b" "c" "d" :: [])).last_results "a" ∧
      calculate_streak ((tallyMatches ([] ++ swapWinners (mkMatch "a" "b" "c" "d") :: [])).last_results "a") =
        calculate_streak ((tallyMatches ([] ++ mkMatch "a" "b" "c" "d" :: [])).last_results "a") :=
  (claim_c9_slot_swap [] [] (mkMatch "a" "b" "c" "d")
    (swapWinners (mkMatch "a" "b" "c" "d")) "a" "a" "c" "a" "b" "c"
    (Or.inl rfl)).1

/-! ## Equivalence of the two aggregation paths -/

theorem winContrib_eq_p {m : MatchRecord} (hm : distinct4 m) (pid : String) :
    winContrib pid m = pWinContrib pid m := by
  obtain ⟨h12, h34, h13, h14, h23, h24⟩ := hm
  unfold winContrib pWinContrib isWinnerB
  by_cases e1 : m.winner1_id = pid <;> by_cases e2 : m.winner2_id = pid <;>
    simp_all [show (pid = m.winner1_id) = (m.winner1_id = pid) from propext ⟨Eq.symm, Eq.symm⟩,
      show (pid = m.winner2_id) = (m.winner2_id = pid) from propext ⟨Eq.symm, Eq.symm⟩]

theorem lossContrib_eq_p {m : MatchRecord} (hm : distinct4 m) (pid : String) :
    lossContrib pid m = pLossContrib pid m := by
  obtain ⟨h12, h34, h13, h14, h23, h24⟩ := hm
  unfold lossContrib pLossContrib isWinnerB isLoserB
  by_cases e1 : m.winner1_id = pid <;> by_cases e2 : m.winner2_id = pid <;>
    by_cases e3 : m.loser1_id = pid <;> by_cases e4 : m.loser2_id = pid <;>
    simp_all [show (pid = m.winner1_id) = (m.winner1_id = pid) from propext ⟨Eq.symm, Eq.symm⟩,
      show (pid = m.winner2_id) = (m.winner2_id = pid) from propext ⟨Eq.symm, Eq.symm⟩,
      show (pid = m.loser1_id) = (m.loser1_id = pid) from propext ⟨Eq.symm, Eq.symm⟩,
      show (pid = m.loser2_id) = (m.loser2_id = pid) from propext ⟨Eq.symm, Eq.symm⟩]

theorem resContrib_eq_p {m : MatchRecord} (hm : distinct4 m) (pid : String) :
    resContrib pid m = pResContrib pid m := by
  obtain ⟨h12, h34, h13, h14, h23, h24⟩ := hm
  unfold resContrib pResContrib isWinnerB isLoserB
  by_cases e1 : m.winner1_id = pid <;> by_cases e2 : m.winner2_id = pid <;>
    by_cases e3 : m.loser1_id = pid <;> by_cases e4 : m.loser2_id = pid <;>
    simp_all [show (pid = m.winner1_id) = (m.winner1_id = pid) from propext ⟨Eq.symm, Eq.symm⟩,
      show (pid = m.winner2_id) = (m.winner2_id = pid) from propext ⟨Eq.symm, Eq.symm⟩,
      show (pid = m.loser1_id) = (m.loser1_id = pid) from propext ⟨Eq.symm, Eq.symm⟩,
      show (pid = m.loser2_id) = (m.loser2_id = pid) from propext ⟨Eq.symm, Eq.symm⟩]

/-- C10: under the precondition that every match's four participant
identifiers are pairwise distinct, the leaderboard path and the
per-player stats path agree for every roster player on wins, losses,
the newest-first result sequence, total games, win rate and streak. -/
theorem claim_c10_paths_equivalent :
    ∀ (players : List Player) (ms : List MatchRecord) (p : Player),
    (∀ m ∈ ms, distinct4 m) → p ∈ players →
    (tallyMatches ms).wins p.id = (get_player_stats p.id ms).wins ∧
    (tallyMatches ms).losses p.id = (get_player_stats p.id ms).losses ∧
    (tallyMatches ms).last_results p.id = (playerStatsAgg p.id ms).results ∧
    (mkEntry (tallyMatches ms) p).total_games =
      (get_player_stats p.id ms).total_games ∧
    (mkEntry (tallyMatches ms) p).win_rate =
      (get_player_stats p.id ms).win_rate ∧
    (mkEntry (tallyMatches ms) p).streak =
      (get_player_stats p.id ms).streak := by
  intro players ms p hd _
  have hwins : (tallyMatches ms).wins p.id = (get_player_stats p.id ms).wins := by
    rw [tallyMatches_wins,
      show (get_player_stats p.id ms).wins = (playerStatsAgg p.id ms).wins
        from rfl,
      playerStatsAgg_wins]
    exact congrArg List.sum
      (List.map_congr_left fun m hm => winContrib_eq_p (hd m hm) p.id)
  have hlosses : (tallyMatches ms).losses p.id =
      (get_player_stats p.id ms).losses := by
    rw [tallyMatches_losses,
      show (get_player_stats p.id ms).losses = (playerStatsAgg p.id ms).losses
        from rfl,
      playerStatsAgg_losses]
    exact congrArg List.sum
      (List.map_congr_left fun m hm => lossContrib_eq_p (hd m hm) p.id)
  have hres : (tallyMatches ms).last_results p.id =
      (playerStatsAgg p.id ms).results := by
    rw [tallyMatches_results, playerStatsAgg_results]
    exact congrArg List.flatten
      (List.map_congr_left fun m hm => resContrib_eq_p (hd m hm) p.id)
  have hwins2 : (tallyMatches ms).wins p.id = (playerStatsAgg p.id ms).wins :=
    hwins
  have hlosses2 : (tallyMatches ms).losses p.id =
      (playerStatsAgg p.id ms).losses := hlosses
  refine ⟨hwins, hlosses, hres, ?_, ?_, ?_⟩
  · rw [show (mkEntry (tallyMatches ms) p).total_games =
        (tallyMatches ms).wins p.id + (tallyMatches ms).losses p.id from rfl,
      show (get_player_stats p.id ms).total_games =
        (playerStatsAgg p.id ms).wins + (playerStatsAgg p.id ms).losses
        from rfl,
      hwins2, hlosses2]
  · rw [show (mkEntry (tallyMatches ms) p).win_rate =
        (if 0 < (tallyMatches ms).wins p.id + (tallyMatches ms).losses p.id
          then ((tallyMatches ms).wins p.id : ℚ) /
            (((tallyMatches ms).wins p.id + (tallyMatches ms).losses p.id : Nat) : ℚ)
          else 0) from rfl,
      show (get_player_stats p.id ms).win_rate =
        (if 0 < (playerStatsAgg p.id ms).wins + (playerStatsAgg p.id ms).losses
          then ((playerStatsAgg p.id ms).wins : ℚ) /
            (((playerStatsAgg p.id ms).wins + (playerStatsAgg p.id ms).losses : Nat) : ℚ)
          else 0) from rfl,
      hwins2, hlosses2]
  · rw [show (mkEntry (tallyMatches ms) p).streak =
        calculate_streak ((tallyMatches ms).last_results p.id) from rfl,
      show (get_player_stats p.id ms).streak =
        calculate_streak ((playerStatsAgg p.id ms).results) from rfl,
      hres]

/-- C10 witness: the equivalence applied to the concrete roster `[pW]`
and the match list `msW` (all participants pairwise distinct). -/
theorem claim_c10_witness :
    (tallyMatches msW).wins pW.id = (get_player_stats pW.id msW).wins ∧
    (tallyMatches msW).losses pW.id = (get_player_stats pW.id msW).losses ∧
    (tallyMatches msW).last_results pW.id = (playerStatsAgg pW.id msW).results ∧
    (mkEntry (tallyMatches msW) pW).total_games =
      (get_player_stats pW.id msW).total_games ∧
    (mkEntry (tallyMatches msW) pW).win_rate =
      (get_player_stats pW.id msW).win_rate ∧
    (mkEntry (tallyMatches msW) pW).streak =
      (get_player_stats pW.id msW).streak :=
  claim_c10_paths_equivalent [pW] msW pW (by decide) (by decide)

end Scoreboard